import Mathlib

/-!
# NaviSearch — verification of the query interpretation and hybrid ranking core

Shallow embedding of the NaviSearch frontend core
(`src/frontend/src/NaviSearch.jsx` and `src/frontend/src/prototype.jsx`):

* the query parser (`parseSearchInput` of both files),
* the tag state machine (`toggleTagInSearch`, `addTagFromRecommendation`,
  `removeTagFromPill`, `updateSearchInputWithTags` of `NaviSearch.jsx`),
* the hybrid ranker and the mock retrieval heuristic of `prototype.jsx`
  (`performSearch`, `calculateSimilarity`),
* the recommendation scorer (`calculateTagEIG` of `prototype.jsx`).

JavaScript strings are modelled as Lean `String` viewed through its `List Char`
field (`String.data`); `toLowerCase` is modelled by `Char.toLower` (identical on
the ASCII/CJK strings processed here), `a.includes(b)` by substring containment
on the character lists, and JS numbers by `ℚ` (exact arithmetic on the same
formulas).  `Math.random()` is modelled as an explicit oracle of rational
draws, one draw per call, and `Math.sqrt` by an exact rational square root
(`ratSqrt`), which agrees with IEEE sqrt on every argument it receives in the
concrete evaluations below (only `0` and `1` occur).
-/

/-! ## String toolkit -/

/-- Lower-casing of a character list; models `String.prototype.toLowerCase`
(`Char.toLower` agrees with the JS simple case mapping on ASCII and on CJK,
the only characters appearing in this repository). -/
def lowerL (l : List Char) : List Char := l.map Char.toLower

/-- Lower-casing of a string. -/
def lowerStr (s : String) : String := String.mk (lowerL s.data)

/-- `containsSub hay needle` models `hay.includes(needle)` for JS strings,
as substring containment of character lists. -/
def containsSub : List Char → List Char → Bool
  | hay, needle =>
    needle.isPrefixOf hay ||
      (match hay with
       | [] => false
       | _ :: t => containsSub t needle)

/-- Accumulator-based splitter: maximal runs of non-whitespace characters. -/
def splitWsAux : List Char → List Char → List (List Char)
  | [], acc => if acc = [] then [] else [acc.reverse]
  | c :: cs, acc =>
    if c.isWhitespace then
      (if acc = [] then splitWsAux cs [] else acc.reverse :: splitWsAux cs [])
    else splitWsAux cs (c :: acc)

/-- The maximal non-whitespace runs of a character list.  For a trimmed string
this is exactly JS `s.split(/\s+/)`; for an arbitrary string it is
`s.trim().split(/\s+/)` with empty pieces discarded, which is how both parsers
consume their input. -/
def splitWs (l : List Char) : List (List Char) := splitWsAux l []

/-- The whitespace-separated tokens of a string; models
`input.trim().split(/\s+/)` followed by discarding empty parts. -/
def tokenize (s : String) : List String := (splitWs s.data).map String.mk

/-! ## Data model -/

/-- The structured query produced by the parsers: free text plus the three tag
sequences (`{ query, likeTags, mustTags, mustNotTags }` in both files). -/
structure StructuredQuery where
  query : String
  likeTags : List String
  mustTags : List String
  mustNotTags : List String
deriving DecidableEq

/-! ## Query parser of `NaviSearch.jsx` (`parseSearchInput`, lines 94–130) -/

/-- `startsWithCh c t` models `t.startsWith(c)` for a single character `c`. -/
def startsWithCh (c : Char) (t : String) : Bool :=
  match t.data with
  | [] => false
  | c' :: _ => c' == c

/-- A tag token for prefix mark `c`: models `part.startsWith(c) && part.length > 1`. -/
def isTag (c : Char) (t : String) : Bool :=
  startsWithCh c t && decide (1 < t.data.length)

/-- A tag token for any of the three prefix marks. -/
def isTagToken (t : String) : Bool := isTag '+' t || isTag '-' t || isTag '~' t

/-- Models the regex test `part.match(/^([+\-~])/)`. -/
def hasMarkStart (t : String) : Bool :=
  startsWithCh '+' t || startsWithCh '-' t || startsWithCh '~' t

/-- Models the regex test `part.match(/^([+\-~])$/)`. -/
def isBareMark (t : String) : Bool := t == "+" || t == "-" || t == "~"

/-- Models `part.substring(1)`. -/
def strDrop1 (t : String) : String := String.mk (t.data.drop 1)

/-- Models `queryTerms.join(' ')`. -/
def joinSpace (qs : List String) : String :=
  String.mk (List.intercalate [' '] (qs.map String.data))

/-- The token loop of `parseSearchInput` in `NaviSearch.jsx`: accumulators for
`queryTerms`, `likeTags`, `mustTags`, `mustNotTags` and the `parsingQuery`
flag, with the branch structure of the source. -/
def parseLoop : List String → List String → List String → List String →
    List String → Bool → StructuredQuery
  | [], qs, ls, ms, ns, _ => ⟨joinSpace qs, ls, ms, ns⟩
  | t :: rest, qs, ls, ms, ns, pq =>
    if isTag '+' t then parseLoop rest qs ls (ms ++ [strDrop1 t]) ns false
    else if isTag '-' t then parseLoop rest qs ls ms (ns ++ [strDrop1 t]) false
    else if isTag '~' t then parseLoop rest qs (ls ++ [strDrop1 t]) ms ns false
    else if pq && !hasMarkStart t then parseLoop rest (qs ++ [t]) ls ms ns pq
    else if isBareMark t then
      (if pq then parseLoop rest (qs ++ [t]) ls ms ns pq
       else parseLoop rest qs (ls ++ [t]) ms ns pq)
    else parseLoop rest qs (ls ++ [t]) ms ns false

/-- `parseSearchInput` of `NaviSearch.jsx`: trim, split on whitespace runs,
then run the token loop (an all-empty query for blank input falls out of
`tokenize` returning `[]`). -/
def parseSearchInput (input : String) : StructuredQuery :=
  parseLoop (tokenize input) [] [] [] [] true

/-! Characterization combinators for the parser (used to state C8). -/

/-- The must tags contributed by a token list: `+`-tag tokens, mark stripped. -/
def mustOf (ts : List String) : List String := (ts.filter (isTag '+')).map strDrop1

/-- The must-not tags contributed by a token list. -/
def mustNotOf (ts : List String) : List String := (ts.filter (isTag '-')).map strDrop1

/-- The like tags contributed by a token list once free-text collection has
ended: `~`-tags mark-stripped, `+`/`-`-tags excluded, everything else kept
verbatim. -/
def likeOf (ts : List String) : List String :=
  ts.filterMap (fun t =>
    if isTag '~' t then some (strDrop1 t)
    else if isTag '+' t || isTag '-' t then none
    else some t)

/-- The tokens before the first tag token. -/
def freeTokensOf (ts : List String) : List String := ts.takeWhile (fun t => !isTagToken t)

/-- The tokens from the first tag token on. -/
def tagTokensOf (ts : List String) : List String := ts.dropWhile (fun t => !isTagToken t)

/-! ## Tag state machine of `NaviSearch.jsx` (lines 274–338)

The operations in the source read the current sets by parsing `searchInput`,
transform them, and re-serialize via `updateSearchInputWithTags`; the
set-level core modelled here is exactly the transformation between the parse
and the re-serialization. -/

/-- The four states of the tag cycle (`getTagState`, lines 274–281). -/
inductive TagState where
  | must
  | mustNot
  | like
  | none
deriving DecidableEq

/-- `memCI tag l` models `l.some(t => t.toLowerCase() === tag.toLowerCase())`. -/
def memCI (tag : String) (l : List String) : Bool :=
  l.any (fun t => lowerStr t == lowerStr tag)

/-- `getTagState` of `NaviSearch.jsx`: case-insensitive membership lookup in
the fixed precedence order must → mustNot → like → none. -/
def getTagState (q : StructuredQuery) (tag : String) : TagState :=
  if memCI tag q.mustTags then TagState.must
  else if memCI tag q.mustNotTags then TagState.mustNot
  else if memCI tag q.likeTags then TagState.like
  else TagState.none

/-- Models `l.filter(t => t.toLowerCase() !== tag.toLowerCase())`. -/
def removeCI (tag : String) (l : List String) : List String :=
  l.filter (fun t => !(lowerStr t == lowerStr tag))

/-- The set-level core of `toggleTagInSearch` (lines 291–312): remove the tag
case-insensitively from all three sets, then append it according to the state
read from the pre-removal sets (none → like → must → mustNot → removed). -/
def toggleTagInSearch (q : StructuredQuery) (tag : String) : StructuredQuery :=
  let ls := removeCI tag q.likeTags
  let ms := removeCI tag q.mustTags
  let ns := removeCI tag q.mustNotTags
  match getTagState q tag with
  | TagState.none => ⟨q.query, ls ++ [tag], ms, ns⟩
  | TagState.like => ⟨q.query, ls, ms ++ [tag], ns⟩
  | TagState.must => ⟨q.query, ls, ms, ns ++ [tag]⟩
  | TagState.mustNot => ⟨q.query, ls, ms, ns⟩

/-- The explicit target classification of a recommendation-pill click. -/
inductive TagKind where
  | like
  | must
  | mustNot
deriving DecidableEq

/-- The set-level core of `addTagFromRecommendation` (lines 314–327): remove
the tag case-insensitively from all three sets, then append it to the set
named by the click. -/
def addTagFromRecommendation (q : StructuredQuery) (tag : String) (ty : TagKind) :
    StructuredQuery :=
  let ls := removeCI tag q.likeTags
  let ms := removeCI tag q.mustTags
  let ns := removeCI tag q.mustNotTags
  match ty with
  | TagKind.like => ⟨q.query, ls ++ [tag], ms, ns⟩
  | TagKind.must => ⟨q.query, ls, ms ++ [tag], ns⟩
  | TagKind.mustNot => ⟨q.query, ls, ms, ns ++ [tag]⟩

/-- The set-level core of `removeTagFromPill` (lines 329–338): remove the tag
case-insensitively from the named set only. -/
def removeTagFromPill (q : StructuredQuery) (tag : String) (ty : TagKind) :
    StructuredQuery :=
  match ty with
  | TagKind.like => ⟨q.query, removeCI tag q.likeTags, q.mustTags, q.mustNotTags⟩
  | TagKind.must => ⟨q.query, q.likeTags, removeCI tag q.mustTags, q.mustNotTags⟩
  | TagKind.mustNot => ⟨q.query, q.likeTags, q.mustTags, removeCI tag q.mustNotTags⟩

/-- One tag state machine operation. -/
inductive TsmOp where
  | toggle (tag : String)
  | add (tag : String) (ty : TagKind)
  | remove (tag : String) (ty : TagKind)

/-- Apply one tag state machine operation. -/
def applyTsmOp (q : StructuredQuery) : TsmOp → StructuredQuery
  | TsmOp.toggle tag => toggleTagInSearch q tag
  | TsmOp.add tag ty => addTagFromRecommendation q tag ty
  | TsmOp.remove tag ty => removeTagFromPill q tag ty

/-- Apply a sequence of tag state machine operations, left to right. -/
def applyTsmOps (q : StructuredQuery) (ops : List TsmOp) : StructuredQuery :=
  ops.foldl applyTsmOp q

/-- No string is, after lower-casing, a member of both lists. -/
def DisjointCI (a b : List String) : Prop :=
  ∀ u ∈ a, ∀ v ∈ b, lowerStr u ≠ lowerStr v

instance (a b : List String) : Decidable (DisjointCI a b) :=
  inferInstanceAs (Decidable (∀ u ∈ a, ∀ v ∈ b, lowerStr u ≠ lowerStr v))

/-- The at-most-one-set invariant: no normalized (lower-cased) tag appears in
more than one of the three tag sets. -/
def TagSetsInvariant (q : StructuredQuery) : Prop :=
  DisjointCI q.likeTags q.mustTags ∧ DisjointCI q.likeTags q.mustNotTags ∧
    DisjointCI q.mustTags q.mustNotTags

instance (q : StructuredQuery) : Decidable (TagSetsInvariant q) :=
  inferInstanceAs (Decidable (DisjointCI q.likeTags q.mustTags ∧
    DisjointCI q.likeTags q.mustNotTags ∧ DisjointCI q.mustTags q.mustNotTags))

/-! ## Serialization (`updateSearchInputWithTags`, `NaviSearch.jsx` lines 283–289) -/

/-- The canonical serialization of a structured query back to display text:
`` `${queryPart}${likePart} ${mustPart} ${mustNotPart}`.replace(/\s+/g,' ').trim() ``
with `queryPart = query ? query + " " : ""` and each tag mapped to its marked
form. Collapsing every whitespace run to one space and trimming is realized
as re-joining the whitespace-separated runs with single spaces, which is the
same string. -/
def updateSearchInputWithTags (q : StructuredQuery) : String :=
  let raw : List Char :=
    (if q.query.data = [] then [] else q.query.data ++ [' ']) ++
      List.intercalate [' '] (q.likeTags.map (fun t => '~' :: t.data)) ++
      [' '] ++ List.intercalate [' '] (q.mustTags.map (fun t => '+' :: t.data)) ++
      [' '] ++ List.intercalate [' '] (q.mustNotTags.map (fun t => '-' :: t.data))
  String.mk (List.intercalate [' '] (splitWs raw))

/-- A well-formed tag for round-tripping: non-empty and whitespace-free. -/
def WfTag (t : String) : Prop := t.data ≠ [] ∧ ∀ c ∈ t.data, c.isWhitespace = false

instance (t : String) : Decidable (WfTag t) :=
  inferInstanceAs (Decidable (t.data ≠ [] ∧ ∀ c ∈ t.data, c.isWhitespace = false))

/-! ## Hybrid ranker of `prototype.jsx` (`performSearch`, lines 154–197) -/

/-- A document of the mock corpus (`mockDocuments`). -/
structure MockDoc where
  id : Nat
  content : String
  source : String
  tags : List String
deriving DecidableEq

/-- A retrieval candidate: a document with its semantic similarity score
(`{...doc, similarity}`). -/
structure Candidate where
  doc : MockDoc
  similarity : ℚ
deriving DecidableEq

/-- A ranked result: a candidate with its like-tag score (`{...doc, likeScore}`). -/
structure Ranked where
  cand : Candidate
  likeScore : Nat
deriving DecidableEq

/-- One tag match test of the ranker:
`docTag.toLowerCase().includes(tag.toLowerCase())`. -/
def docTagMatches (docTag queryTag : String) : Bool :=
  containsSub (lowerL docTag.data) (lowerL queryTag.data)

/-- `doc.tags.some(docTag => docTag.toLowerCase().includes(tag.toLowerCase()))`. -/
def hasMatchingTag (docTags : List String) (queryTag : String) : Bool :=
  docTags.any (fun d => docTagMatches d queryTag)

/-- The filter step of the ranker: keep a document iff every must tag matches
one of its tags and no must-not tag matches any of its tags
(`prototype.jsx` lines 166–177). -/
def keepDoc (mustTags mustNotTags docTags : List String) : Bool :=
  mustTags.all (fun t => hasMatchingTag docTags t) &&
    mustNotTags.all (fun t => !hasMatchingTag docTags t)

/-- The like score: the number of like tags matching some document tag
(`prototype.jsx` lines 180–187; the `forEach` adds 1 per matching like tag,
duplicates counting again). -/
def likeScoreOf (likeTags docTags : List String) : Nat :=
  (likeTags.filter (fun t => hasMatchingTag docTags t)).length

/-- The rerank comparator: descending by `(likeScore, similarity)`
(`sort((a,b) => b.likeScore - a.likeScore || b.similarity - a.similarity)`
shape of lines 188–193); `rankLe a b` holds when `a` may come no later
than `b`. -/
def rankLe (a b : Ranked) : Prop :=
  b.likeScore < a.likeScore ∨
    (a.likeScore = b.likeScore ∧ b.cand.similarity ≤ a.cand.similarity)

instance : DecidableRel rankLe := by
  intro a b
  exact inferInstanceAs (Decidable (_ ∨ _))

instance : IsTotal Ranked rankLe where
  total a b := by
    unfold rankLe
    rcases Nat.lt_trichotomy a.likeScore b.likeScore with h | h | h
    · exact Or.inr (Or.inl h)
    · rcases le_total a.cand.similarity b.cand.similarity with hs | hs
      · exact Or.inr (Or.inr ⟨h.symm, hs⟩)
      · exact Or.inl (Or.inr ⟨h, hs⟩)
    · exact Or.inl (Or.inl h)

instance : IsTrans Ranked rankLe where
  trans a b c hab hbc := by
    unfold rankLe at *
    rcases hab with h1 | ⟨h1, h1s⟩ <;> rcases hbc with h2 | ⟨h2, h2s⟩
    · exact Or.inl (h2.trans h1)
    · exact Or.inl (h2 ▸ h1)
    · exact Or.inl (h2.trans_eq h1.symm)
    · exact Or.inr ⟨h1.trans h2, h2s.trans h1s⟩

/-- The filter → score → sort → truncate stage of `performSearch`
(`prototype.jsx` lines 166–196), as a function of the structured query and
the retrieved candidate list: filter by must/must-not tags, attach the like
score, sort descending by `(likeScore, similarity)` (stable, as JS `sort`),
and keep the top 5 (`RERANK_TOP_K`). -/
def rankStage (q : StructuredQuery) (candidates : List Candidate) : List Ranked :=
  let filtered := candidates.filter (fun c => keepDoc q.mustTags q.mustNotTags c.doc.tags)
  let scored := filtered.map (fun c => ⟨c, likeScoreOf q.likeTags c.doc.tags⟩)
  (List.insertionSort rankLe scored).take 5

/-- The spec's bidirectional substring-tolerant match, written from the
spec's words (`a.includes(b) or b.includes(a)`, case-insensitive), for
comparison against the source's one-directional `docTagMatches`. -/
def SpecBidirMatch (docTag queryTag : String) : Prop :=
  lowerL queryTag.data <:+: lowerL docTag.data ∨
    lowerL docTag.data <:+: lowerL queryTag.data

instance (d t : String) : Decidable (SpecBidirMatch d t) :=
  inferInstanceAs (Decidable (_ ∨ _))

/-- The spec's filter rule (claim C2), written from the spec's words: keep a
candidate iff every must tag matches some document tag and no must-not tag
matches any document tag, with the bidirectional match. -/
def SpecKeep (mustTags mustNotTags docTags : List String) : Prop :=
  (∀ t ∈ mustTags, ∃ d ∈ docTags, SpecBidirMatch d t) ∧
    (∀ t ∈ mustNotTags, ¬ ∃ d ∈ docTags, SpecBidirMatch d t)

instance (m n d : List String) : Decidable (SpecKeep m n d) :=
  inferInstanceAs (Decidable (_ ∧ _))

/-! ## Recommendation scorer (`calculateTagEIG`, `prototype.jsx` lines 200–218) -/

/-- One recommendation entry `{tag, frequency, eig}`. -/
structure TagRec where
  tag : String
  frequency : Nat
  eig : ℚ
deriving DecidableEq

/-- One step of the frequency accumulation
`tagFrequency[tag] = (tagFrequency[tag] || 0) + 1`, on the insertion-ordered
association list that models the JS object with non-index string keys. -/
def bump : List (String × Nat) → String → List (String × Nat)
  | [], t => [(t, 1)]
  | (k, v) :: rest, t => if k = t then (k, v + 1) :: rest else (k, v) :: bump rest t

/-- The tag frequency table over the result list (lines 204–209). -/
def tagFrequency (results : List Ranked) : List (String × Nat) :=
  results.foldl (fun m r => r.cand.doc.tags.foldl bump m) []

/-- The entries `{tag, frequency, eig}` with
`eig = Math.abs(freq - totalResults / 2)` (lines 211–214), in the key order
of the frequency table (`Object.entries` insertion order). -/
def tagEntries (results : List Ranked) : List TagRec :=
  (tagFrequency results).map (fun kv =>
    ⟨kv.1, kv.2, |(kv.2 : ℚ) - (results.length : ℚ) / 2|⟩)

/-- The value the frequency table stores for a key (`tagFrequency[tag] || 0`). -/
def freqOf : List (String × Nat) → String → Nat
  | [], _ => 0
  | (k, v) :: rest, t => if k = t then v else freqOf rest t

/-- The recommendation comparator: descending by `eig`
(`sort((a, b) => b.eig - a.eig)`). -/
def eigLe (a b : TagRec) : Prop := b.eig ≤ a.eig

instance : DecidableRel eigLe := by
  intro a b
  exact inferInstanceAs (Decidable (_ ≤ _))

instance : IsTotal TagRec eigLe where
  total a b := le_total b.eig a.eig

instance : IsTrans TagRec eigLe where
  trans _ _ _ hab hbc := le_trans hbc hab

/-- `calculateTagEIG` of `prototype.jsx`: empty for an empty result list,
otherwise the entries sorted descending by `eig` (stable) and truncated to
the top 15 (`TAGS_TOP_K`). -/
def calculateTagEIG (results : List Ranked) : List TagRec :=
  if results.length = 0 then []
  else (List.insertionSort eigLe (tagEntries results)).take 15

/-! ## Query parser of `prototype.jsx` (`parseSearchInput`, lines 77–99) -/

/-- The tag classification loop of the prototype parser (`tags.forEach`):
`+`/`-`/`~` prefixes are stripped into the respective sets (no length check)
and anything else becomes a like tag. -/
def protoTagLoop : List String → List String → List String → List String →
    List String × List String × List String
  | [], ls, ms, ns => (ls, ms, ns)
  | t :: rest, ls, ms, ns =>
    if startsWithCh '+' t then protoTagLoop rest ls (ms ++ [strDrop1 t]) ns
    else if startsWithCh '-' t then protoTagLoop rest ls ms (ns ++ [strDrop1 t])
    else if startsWithCh '~' t then protoTagLoop rest (ls ++ [strDrop1 t]) ms ns
    else protoTagLoop rest (ls ++ [t]) ms ns

/-- `parseSearchInput` of `prototype.jsx`: the first whitespace-separated
token is the whole free text (`parts[0] || ''`), every later token is
classified by its prefix. -/
def parseSearchInputProto (input : String) : StructuredQuery :=
  match tokenize input with
  | [] => ⟨"", [], [], []⟩
  | q :: ts =>
    match protoTagLoop ts [] [] [] with
    | (ls, ms, ns) => ⟨q, ls, ms, ns⟩

/-! ## Mock similarity heuristic (`calculateSimilarity`, `prototype.jsx` lines 102–151) -/

/-- Models JS `s.split(/\s+/)` on an untrimmed string: the whitespace runs
become separators, with an empty piece at an end that starts or ends with
whitespace (and a single empty piece for the empty string). -/
def jsSplitWs (l : List Char) : List (List Char) :=
  match l with
  | [] => [[]]
  | c :: _ =>
    (if c.isWhitespace then [[]] else []) ++ splitWs l ++
      (match l.getLast? with
       | some c' => if c'.isWhitespace then [[]] else []
       | Option.none => [])

/-- Model of `Math.sqrt` restricted to exact rational squares: the exact
nonnegative square root when the argument is the square of a rational, and 0
otherwise.  `Math.sqrt` computes on IEEE doubles; in every concrete
evaluation of this development it is applied only to the ratios 0 and 1,
where IEEE sqrt is exact and agrees with this model. -/
def ratSqrt (q : ℚ) : ℚ :=
  if 0 ≤ q ∧ (Nat.sqrt q.num.natAbs) ^ 2 = q.num.natAbs ∧ (Nat.sqrt q.den) ^ 2 = q.den
  then (Nat.sqrt q.num.natAbs : ℚ) / (Nat.sqrt q.den : ℚ)
  else 0

/-- `calculateSimilarity` of `prototype.jsx`: the mock semantic score.  The
single `Math.random()` draw of the call is the explicit `rand` argument. -/
def calculateSimilarity (rand : ℚ) (query content : String) : ℚ :=
  if query.data = [] then 3 / 10
  else
    let queryLower := lowerL query.data
    let contentLower := lowerL content.data
    let exactMatch : ℚ := if containsSub contentLower queryLower then 8 / 10 else 0
    let queryWords := (jsSplitWs queryLower).filter (fun w => w.length ≠ 0)
    let contentWords := jsSplitWs contentLower
    let matchedWords := queryWords.filter (fun qw =>
      contentWords.any (fun cw => containsSub cw qw || containsSub qw cw))
    let keywordMatch : ℚ :=
      if queryWords.length ≠ 0 then
        (matchedWords.length : ℚ) / (queryWords.length : ℚ) * (6 / 10)
      else 0
    let queryChars := queryLower.filter (fun c => !c.isWhitespace)
    let charMatches := (queryChars.filter (fun c => containsSub contentLower [c])).length
    let partialMatch : ℚ :=
      if queryChars.length ≠ 0 then
        ratSqrt ((charMatches : ℚ) / (queryChars.length : ℚ)) * (3 / 10)
      else 0
    let lengthPenalty : ℚ := min ((queryLower.length : ℚ) / 10) 1
    let totalScore := max exactMatch (keywordMatch + partialMatch) * lengthPenalty
    let randomFactor := 85 / 100 + rand * (15 / 100)
    min (totalScore * randomFactor) (95 / 100)

/-- The mock corpus of `prototype.jsx` (`mockDocuments`, lines 5–54). -/
def mockDoc1 : MockDoc :=
  ⟨1, "React是一个用于构建用户界面的JavaScript库。它采用组件化架构，支持虚拟DOM技术，提供了声明式编程范式。React由Facebook开发，广泛应用于现代Web开发中。",
    "react-guide.md",
    ["前端", "JavaScript", "React", "组件化", "虚拟DOM", "声明式", "Facebook", "Web开发"]⟩

def mockDoc2 : MockDoc :=
  ⟨2, "Vue.js是一个渐进式JavaScript框架，用于构建用户界面。Vue的核心库只关注视图层，易于上手，同时便于与第三方库或既有项目整合。",
    "vue-tutorial.md",
    ["前端", "JavaScript", "Vue", "渐进式", "框架", "视图层", "易上手", "Web开发"]⟩

def mockDoc3 : MockDoc :=
  ⟨3, "Python是一种高级编程语言，具有简洁的语法和强大的功能。Python广泛应用于数据科学、机器学习、Web开发等领域。其丰富的第三方库生态系统是其主要优势之一。",
    "python-intro.md",
    ["后端", "Python", "高级语言", "数据科学", "机器学习", "Web开发", "第三方库", "生态系统"]⟩

def mockDoc4 : MockDoc :=
  ⟨4, "机器学习是人工智能的一个重要分支，通过算法让计算机从数据中学习模式。常见的机器学习算法包括线性回归、决策树、神经网络等。",
    "ml-basics.md",
    ["机器学习", "人工智能", "算法", "数据", "线性回归", "决策树", "神经网络", "模式识别"]⟩

def mockDoc5 : MockDoc :=
  ⟨5, "Docker是一个开源的容器化平台，允许开发者将应用程序和其依赖项打包到轻量级、可移植的容器中。Docker简化了应用部署和环境管理。",
    "docker-guide.md",
    ["DevOps", "Docker", "容器化", "开源", "部署", "环境管理", "轻量级", "可移植"]⟩

def mockDoc6 : MockDoc :=
  ⟨6, "Node.js是一个基于Chrome V8引擎的JavaScript运行时环境。它使JavaScript能够在服务器端运行，具有事件驱动、非阻塞I/O等特性。",
    "nodejs-overview.md",
    ["后端", "Node.js", "JavaScript", "V8引擎", "服务器", "事件驱动", "非阻塞", "运行时"]⟩

def mockDoc7 : MockDoc :=
  ⟨7, "微服务架构是一种将单一应用程序开发为一套小服务的方法。每个服务运行在自己的进程中，并使用轻量级机制通信。",
    "microservices.md",
    ["架构", "微服务", "分布式", "服务化", "进程", "轻量级", "通信", "解耦"]⟩

def mockDoc8 : MockDoc :=
  ⟨8, "GraphQL是一种用于API的查询语言和运行时。它提供了一种更高效、强大和灵活的数据获取方式，允许客户端精确指定需要的数据。",
    "graphql-intro.md",
    ["API", "GraphQL", "查询语言", "运行时", "数据获取", "灵活", "客户端", "精确查询"]⟩

def mockDocuments : List MockDoc :=
  [mockDoc1, mockDoc2, mockDoc3, mockDoc4, mockDoc5, mockDoc6, mockDoc7, mockDoc8]

/-- The retrieval map of `performSearch`
(`mockDocuments.map(doc => ({...doc, similarity: calculateSimilarity(...)}))`),
with the random oracle consumed one draw per document in map order. -/
def simMap (rands : Nat → ℚ) (q : String) : Nat → List MockDoc → List Candidate
  | _, [] => []
  | i, d :: ds => ⟨d, calculateSimilarity (rands i) q d.content⟩ :: simMap rands q (i + 1) ds

/-- The retrieval comparator: descending by similarity
(`sort((a, b) => b.similarity - a.similarity)`). -/
def simLe (a b : Candidate) : Prop := b.similarity ≤ a.similarity

instance : DecidableRel simLe := by
  intro a b
  exact inferInstanceAs (Decidable (_ ≤ _))

instance : IsTotal Candidate simLe where
  total a b := le_total b.similarity a.similarity

instance : IsTrans Candidate simLe where
  trans _ _ _ hab hbc := le_trans hbc hab

/-- `performSearch` of `prototype.jsx` (lines 154–197): score the mock corpus,
sort descending by similarity (stable), keep the top 8 (`K_retrieve`), then
run the filter → score → rerank → truncate stage. -/
def performSearchProto (rands : Nat → ℚ) (p : StructuredQuery) : List Ranked :=
  let candidates := simMap rands p.query 0 mockDocuments
  let top := (List.insertionSort simLe candidates).take 8
  rankStage p top

/-- The full prototype pipeline on a raw input string: parse, search,
recommend. -/
def searchPipeline (rands : Nat → ℚ) (input : String) : List Ranked × List TagRec :=
  let p := parseSearchInputProto input
  let rs := performSearchProto rands p
  (rs, calculateTagEIG rs)

/-! ## Search orchestration of `NaviSearch.jsx` (`performSearch`, lines 134–154) -/

/-- The backend's response to `/search` as consumed by the frontend. -/
structure SearchResponse where
  results : List Ranked
  recommended_tags : List TagRec

/-- `performSearch` of `NaviSearch.jsx`: a fully empty structured query
short-circuits to empty results and empty recommendations without calling the
backend; otherwise the backend (`api`, possibly failing) supplies both lists.
The function returns the pair the source stores via `setSearchResults` /
`setRecommendedTags`. -/
def performSearch (api : StructuredQuery → Option SearchResponse)
    (p : StructuredQuery) : List Ranked × List TagRec :=
  if p.query = "" ∧ p.likeTags = [] ∧ p.mustTags = [] ∧ p.mustNotTags = [] then
    ([], [])
  else
    match api p with
    | some d => (d.results, d.recommended_tags)
    | Option.none => ([], [])

/-! ## Theorems -/

theorem startsWithCh_iff {c : Char} {t : String} :
    startsWithCh c t = true ↔ ∃ rest, t.data = c :: rest := by
  unfold startsWithCh
  cases h : t.data with
  | nil => simp
  | cons c' r =>
    simp only [beq_iff_eq]
    constructor
    · rintro rfl; exact ⟨r, rfl⟩
    · rintro ⟨rest, hr⟩; cases hr; rfl

theorem isTag_ne_mark {c d : Char} {t : String} (hcd : c ≠ d)
    (h : isTag c t = true) : isTag d t = false := by
  rcases Bool.and_eq_true .. |>.mp h with ⟨hs, _⟩
  rcases startsWithCh_iff.mp hs with ⟨rest, hr⟩
  have hd : startsWithCh d t = false := by
    unfold startsWithCh
    rw [hr]
    simp only [beq_eq_false_iff_ne, ne_eq]
    exact fun h2 => hcd h2
  simp [isTag, hd]

theorem bareMark_of_mark_not_tag {t : String} (hms : hasMarkStart t = true)
    (htt : isTagToken t = false) : isBareMark t = true := by
  have hex : startsWithCh '+' t = true ∨ startsWithCh '-' t = true ∨
      startsWithCh '~' t = true := by
    simpa [hasMarkStart, Bool.or_eq_true, or_assoc] using hms
  have key : ∀ c : Char, c = '+' ∨ c = '-' ∨ c = '~' → startsWithCh c t = true →
      isBareMark t = true := by
    intro c hc hs
    rcases startsWithCh_iff.mp hs with ⟨rest, hr⟩
    cases rest with
    | nil =>
      have ht : t = String.mk [c] := by
        cases t with
        | mk d => cases hr; rfl
      rcases hc with rfl | rfl | rfl <;> (subst ht; decide)
    | cons x xs =>
      exfalso
      have hlen : 1 < t.data.length := by rw [hr]; simp
      have htag : isTag c t = true := by
        simp only [isTag, hs, Bool.true_and, decide_eq_true_eq]
        exact hlen
      have htrue : isTagToken t = true := by
        rcases hc with rfl | rfl | rfl <;> simp [isTagToken, htag]
      rw [htrue] at htt
      exact Bool.noConfusion htt
  rcases hex with h | h | h
  · exact key '+' (Or.inl rfl) h
  · exact key '-' (Or.inr (Or.inl rfl)) h
  · exact key '~' (Or.inr (Or.inr rfl)) h

theorem isBareMark_not_isTagToken {t : String} (h : isBareMark t = true) :
    isTagToken t = false := by
  have h3 : t = "+" ∨ t = "-" ∨ t = "~" := by
    simpa [isBareMark, Bool.or_eq_true, or_assoc] using h
  rcases h3 with rfl | rfl | rfl <;> decide

/-! One-step equations for `parseLoop`, one per source branch. -/

theorem parseLoop_step_plus {t : String} (rest qs ls ms ns : List String) (pq : Bool)
    (hp : isTag '+' t = true) :
    parseLoop (t :: rest) qs ls ms ns pq =
      parseLoop rest qs ls (ms ++ [strDrop1 t]) ns false := by
  rw [parseLoop, if_pos hp]

theorem parseLoop_step_minus {t : String} (rest qs ls ms ns : List String) (pq : Bool)
    (hp : isTag '+' t = false) (hm : isTag '-' t = true) :
    parseLoop (t :: rest) qs ls ms ns pq =
      parseLoop rest qs ls ms (ns ++ [strDrop1 t]) false := by
  rw [parseLoop, if_neg (by simp [hp]), if_pos hm]

theorem parseLoop_step_tilde {t : String} (rest qs ls ms ns : List String) (pq : Bool)
    (hp : isTag '+' t = false) (hm : isTag '-' t = false) (hl : isTag '~' t = true) :
    parseLoop (t :: rest) qs ls ms ns pq =
      parseLoop rest qs (ls ++ [strDrop1 t]) ms ns false := by
  rw [parseLoop, if_neg (by simp [hp]), if_neg (by simp [hm]), if_pos hl]

theorem parseLoop_step_query {t : String} (rest qs ls ms ns : List String)
    (hp : isTag '+' t = false) (hm : isTag '-' t = false) (hl : isTag '~' t = false)
    (hms : hasMarkStart t = false) :
    parseLoop (t :: rest) qs ls ms ns true =
      parseLoop rest (qs ++ [t]) ls ms ns true := by
  rw [parseLoop, if_neg (by simp [hp]), if_neg (by simp [hm]), if_neg (by simp [hl]),
    if_pos (by simp [hms])]

theorem parseLoop_step_bare {t : String} (rest qs ls ms ns : List String) (pq : Bool)
    (hp : isTag '+' t = false) (hm : isTag '-' t = false) (hl : isTag '~' t = false)
    (hnq : (pq && !hasMarkStart t) = false) (hb : isBareMark t = true) :
    parseLoop (t :: rest) qs ls ms ns pq =
      (if pq then parseLoop rest (qs ++ [t]) ls ms ns pq
       else parseLoop rest qs (ls ++ [t]) ms ns pq) := by
  rw [parseLoop, if_neg (by simp [hp]), if_neg (by simp [hm]), if_neg (by simp [hl]),
    if_neg (by simp [hnq]), if_pos hb]

theorem parseLoop_step_other {t : String} (rest qs ls ms ns : List String) (pq : Bool)
    (hp : isTag '+' t = false) (hm : isTag '-' t = false) (hl : isTag '~' t = false)
    (hnq : (pq && !hasMarkStart t) = false) (hb : isBareMark t = false) :
    parseLoop (t :: rest) qs ls ms ns pq =
      parseLoop rest qs (ls ++ [t]) ms ns false := by
  rw [parseLoop, if_neg (by simp [hp]), if_neg (by simp [hm]), if_neg (by simp [hl]),
    if_neg (by simp [hnq]), if_neg (by simp [hb])]

theorem likeOf_cons_keep {t : String} (ts : List String)
    (hl : isTag '~' t = false) (hp : isTag '+' t = false) (hm : isTag '-' t = false) :
    likeOf (t :: ts) = t :: likeOf ts := by
  simp [likeOf, hl, hp, hm]

/-- In the post-free-text phase (`parsingQuery = false`), the loop appends the
contributions of the remaining tokens to the accumulators. -/
theorem parseLoop_post (ts : List String) :
    ∀ qs ls ms ns, parseLoop ts qs ls ms ns false =
      ⟨joinSpace qs, ls ++ likeOf ts, ms ++ mustOf ts, ns ++ mustNotOf ts⟩ := by
  induction ts with
  | nil => intro qs ls ms ns; simp [parseLoop, likeOf, mustOf, mustNotOf]
  | cons t rest ih =>
    intro qs ls ms ns
    by_cases hp : isTag '+' t = true
    · have hm : isTag '-' t = false := isTag_ne_mark (by decide) hp
      have hl : isTag '~' t = false := isTag_ne_mark (by decide) hp
      rw [parseLoop_step_plus rest qs ls ms ns false hp, ih]
      simp [likeOf, mustOf, mustNotOf, hp, hm, hl]
    · rw [Bool.not_eq_true] at hp
      by_cases hm : isTag '-' t = true
      · have hl : isTag '~' t = false := isTag_ne_mark (by decide) hm
        rw [parseLoop_step_minus rest qs ls ms ns false hp hm, ih]
        simp [likeOf, mustOf, mustNotOf, hp, hm, hl]
      · rw [Bool.not_eq_true] at hm
        by_cases hl : isTag '~' t = true
        · rw [parseLoop_step_tilde rest qs ls ms ns false hp hm hl, ih]
          simp [likeOf, mustOf, mustNotOf, hp, hm, hl]
        · rw [Bool.not_eq_true] at hl
          have hkeep := likeOf_cons_keep rest hl hp hm
          by_cases hb : isBareMark t = true
          · rw [parseLoop_step_bare rest qs ls ms ns false hp hm hl (by simp) hb,
              if_neg (by simp), ih]
            simp [mustOf, mustNotOf, hkeep, hp, hm]
          · rw [Bool.not_eq_true] at hb
            rw [parseLoop_step_other rest qs ls ms ns false hp hm hl (by simp) hb, ih]
            simp [mustOf, mustNotOf, hkeep, hp, hm]

/-- In the free-text phase, the loop collects the tokens before the first tag
token into the free text and hands the rest to the post phase. -/
theorem parseLoop_free (ts : List String) :
    ∀ qs, parseLoop ts qs [] [] [] true =
      ⟨joinSpace (qs ++ freeTokensOf ts), likeOf (tagTokensOf ts),
        mustOf (tagTokensOf ts), mustNotOf (tagTokensOf ts)⟩ := by
  induction ts with
  | nil => intro qs; simp [parseLoop, freeTokensOf, tagTokensOf, likeOf, mustOf, mustNotOf]
  | cons t rest ih =>
    intro qs
    by_cases hp : isTag '+' t = true
    · have htt : isTagToken t = true := by simp [isTagToken, hp]
      have hm : isTag '-' t = false := isTag_ne_mark (by decide) hp
      have hl : isTag '~' t = false := isTag_ne_mark (by decide) hp
      rw [parseLoop_step_plus rest qs [] [] [] true hp, parseLoop_post]
      simp [freeTokensOf, tagTokensOf, List.takeWhile_cons, List.dropWhile_cons, htt,
        likeOf, mustOf, mustNotOf, hp, hm, hl]
    · rw [Bool.not_eq_true] at hp
      by_cases hm : isTag '-' t = true
      · have htt : isTagToken t = true := by simp [isTagToken, hm]
        have hl : isTag '~' t = false := isTag_ne_mark (by decide) hm
        rw [parseLoop_step_minus rest qs [] [] [] true hp hm, parseLoop_post]
        simp [freeTokensOf, tagTokensOf, List.takeWhile_cons, List.dropWhile_cons, htt,
          likeOf, mustOf, mustNotOf, hp, hm, hl]
      · rw [Bool.not_eq_true] at hm
        by_cases hl : isTag '~' t = true
        · have htt : isTagToken t = true := by simp [isTagToken, hl]
          rw [parseLoop_step_tilde rest qs [] [] [] true hp hm hl, parseLoop_post]
          simp [freeTokensOf, tagTokensOf, List.takeWhile_cons, List.dropWhile_cons, htt,
            likeOf, mustOf, mustNotOf, hp, hm, hl]
        · rw [Bool.not_eq_true] at hl
          have htt : isTagToken t = false := by simp [isTagToken, hp, hm, hl]
          by_cases hms : hasMarkStart t = true
          · have hb : isBareMark t = true := bareMark_of_mark_not_tag hms htt
            rw [parseLoop_step_bare rest qs [] [] [] true hp hm hl (by simp [hms]) hb,
              if_pos rfl, ih]
            simp [freeTokensOf, tagTokensOf, List.takeWhile_cons, List.dropWhile_cons, htt]
          · rw [Bool.not_eq_true] at hms
            rw [parseLoop_step_query rest qs [] [] [] hp hm hl hms, ih]
            simp [freeTokensOf, tagTokensOf, List.takeWhile_cons, List.dropWhile_cons, htt]

/-- C8: for every input string, `parseSearchInput` processes the
whitespace-separated tokens left to right so that (i) each prefixed tag token
(`+x`/`-x`/`~x`, at least one character after the mark) lands, mark stripped,
in `mustTags`/`mustNotTags`/`likeTags` and permanently ends free-text
collection, (ii) every token before the first tag token joins the free text,
and (iii) every unprefixed token after the first tag token is appended to
`likeTags`.  Stated as a closed characterization: the token list splits at the
first tag token, the part before it joining the free text verbatim and the
rest contributing exactly its classified tags. -/
theorem parseSearchInput_spec (input : String) :
    parseSearchInput input =
      ⟨joinSpace (freeTokensOf (tokenize input)),
        likeOf (tagTokensOf (tokenize input)),
        mustOf (tagTokensOf (tokenize input)),
        mustNotOf (tagTokensOf (tokenize input))⟩ := by
  unfold parseSearchInput
  simpa using parseLoop_free (tokenize input) []

/-! ## Tag state machine lemmas -/

theorem memCI_iff {tag : String} {l : List String} :
    memCI tag l = true ↔ ∃ t ∈ l, lowerStr t = lowerStr tag := by
  simp [memCI, List.any_eq_true, beq_iff_eq]

theorem mem_removeCI {u tag : String} {l : List String} :
    u ∈ removeCI tag l ↔ u ∈ l ∧ lowerStr u ≠ lowerStr tag := by
  simp [removeCI, List.mem_filter]

theorem memCI_removeCI_self (tag : String) (l : List String) :
    memCI tag (removeCI tag l) = false := by
  rw [← Bool.not_eq_true, memCI_iff]
  rintro ⟨t, ht, he⟩
  exact (mem_removeCI.mp ht).2 he

theorem memCI_append_self (tag : String) (l : List String) :
    memCI tag (l ++ [tag]) = true :=
  memCI_iff.mpr ⟨tag, by simp, rfl⟩

theorem memCI_removeCI_other {u tag : String} (l : List String)
    (h : lowerStr u ≠ lowerStr tag) :
    memCI u (removeCI tag l) = memCI u l := by
  cases hb : memCI u l with
  | true =>
    rcases memCI_iff.mp hb with ⟨t, ht, he⟩
    have hne : lowerStr t ≠ lowerStr tag := fun hc => h (he ▸ hc)
    exact memCI_iff.mpr ⟨t, mem_removeCI.mpr ⟨ht, hne⟩, he⟩
  | false =>
    rw [← Bool.not_eq_true, memCI_iff]
    rintro ⟨t, ht, he⟩
    have : memCI u l = true := memCI_iff.mpr ⟨t, (mem_removeCI.mp ht).1, he⟩
    rw [hb] at this
    exact Bool.noConfusion this

theorem memCI_append_other {u tag : String} (l : List String)
    (h : lowerStr u ≠ lowerStr tag) :
    memCI u (l ++ [tag]) = memCI u l := by
  have hne : lowerStr tag ≠ lowerStr u := fun hc => h hc.symm
  simp [memCI, List.any_append, beq_iff_eq, hne]

theorem getTagState_none_iff {q : StructuredQuery} {tag : String} :
    getTagState q tag = TagState.none ↔
      memCI tag q.mustTags = false ∧ memCI tag q.mustNotTags = false ∧
        memCI tag q.likeTags = false := by
  cases h1 : memCI tag q.mustTags with
  | true => simp [getTagState, h1]
  | false =>
    cases h2 : memCI tag q.mustNotTags with
    | true => simp [getTagState, h1, h2]
    | false =>
      cases h3 : memCI tag q.likeTags with
      | true => simp [getTagState, h1, h2, h3]
      | false => simp [getTagState, h1, h2, h3]

theorem toggle_of_none {q : StructuredQuery} {tag : String}
    (h : getTagState q tag = TagState.none) :
    toggleTagInSearch q tag =
      ⟨q.query, removeCI tag q.likeTags ++ [tag], removeCI tag q.mustTags,
        removeCI tag q.mustNotTags⟩ := by
  simp [toggleTagInSearch, h]

theorem toggle_of_like {q : StructuredQuery} {tag : String}
    (h : getTagState q tag = TagState.like) :
    toggleTagInSearch q tag =
      ⟨q.query, removeCI tag q.likeTags, removeCI tag q.mustTags ++ [tag],
        removeCI tag q.mustNotTags⟩ := by
  simp [toggleTagInSearch, h]

theorem toggle_of_must {q : StructuredQuery} {tag : String}
    (h : getTagState q tag = TagState.must) :
    toggleTagInSearch q tag =
      ⟨q.query, removeCI tag q.likeTags, removeCI tag q.mustTags,
        removeCI tag q.mustNotTags ++ [tag]⟩ := by
  simp [toggleTagInSearch, h]

theorem toggle_of_mustNot {q : StructuredQuery} {tag : String}
    (h : getTagState q tag = TagState.mustNot) :
    toggleTagInSearch q tag =
      ⟨q.query, removeCI tag q.likeTags, removeCI tag q.mustTags,
        removeCI tag q.mustNotTags⟩ := by
  simp [toggleTagInSearch, h]

/-- C5: for every query state in which the tag is absent from all three sets
(`getTagState` is `none`), four consecutive toggles of that tag return to a
state in which it is again absent from all three sets. -/
theorem toggle_cycle_four (q : StructuredQuery) (tag : String)
    (h : getTagState q tag = TagState.none) :
    getTagState (toggleTagInSearch (toggleTagInSearch (toggleTagInSearch
      (toggleTagInSearch q tag) tag) tag) tag) tag = TagState.none := by
  have h1 : getTagState (toggleTagInSearch q tag) tag = TagState.like := by
    rw [toggle_of_none h]
    simp [getTagState, memCI_removeCI_self, memCI_append_self]
  have h2 : getTagState (toggleTagInSearch (toggleTagInSearch q tag) tag) tag =
      TagState.must := by
    rw [toggle_of_like h1]
    simp [getTagState, memCI_append_self]
  have h3 : getTagState (toggleTagInSearch (toggleTagInSearch
      (toggleTagInSearch q tag) tag) tag) tag = TagState.mustNot := by
    rw [toggle_of_must h2]
    simp [getTagState, memCI_removeCI_self, memCI_append_self]
  rw [toggle_of_mustNot h3]
  simp [getTagState, memCI_removeCI_self]

/-- Witness for C5 at a concrete state and tag. -/
theorem toggle_cycle_four_witness :
    getTagState ⟨"x", ["b"], [], []⟩ "a" = TagState.none ∧
      getTagState (toggleTagInSearch (toggleTagInSearch (toggleTagInSearch
        (toggleTagInSearch ⟨"x", ["b"], [], []⟩ "a") "a") "a") "a") "a" =
        TagState.none :=
  ⟨by decide, toggle_cycle_four ⟨"x", ["b"], [], []⟩ "a" (by decide)⟩

/-- C10: toggling a tag changes nothing but that tag's own classification:
the free text and the case-insensitive membership of every other normalized
tag in each of the three sets are unchanged. -/
theorem toggle_frame (q : StructuredQuery) (tag u : String)
    (h : lowerStr u ≠ lowerStr tag) :
    (toggleTagInSearch q tag).query = q.query ∧
      memCI u (toggleTagInSearch q tag).likeTags = memCI u q.likeTags ∧
      memCI u (toggleTagInSearch q tag).mustTags = memCI u q.mustTags ∧
      memCI u (toggleTagInSearch q tag).mustNotTags = memCI u q.mustNotTags := by
  cases hst : getTagState q tag <;>
    simp [toggleTagInSearch, hst, memCI_append_other _ h, memCI_removeCI_other _ h]

/-- Witness for C10 at a concrete state, toggled tag and other tag. -/
theorem toggle_frame_witness :
    lowerStr "b" ≠ lowerStr "A" ∧
      ((toggleTagInSearch ⟨"f", ["A"], ["b"], []⟩ "A").query = "f" ∧
        memCI "b" (toggleTagInSearch ⟨"f", ["A"], ["b"], []⟩ "A").likeTags =
          memCI "b" ["A"] ∧
        memCI "b" (toggleTagInSearch ⟨"f", ["A"], ["b"], []⟩ "A").mustTags =
          memCI "b" ["b"] ∧
        memCI "b" (toggleTagInSearch ⟨"f", ["A"], ["b"], []⟩ "A").mustNotTags =
          memCI "b" []) :=
  ⟨by decide, toggle_frame ⟨"f", ["A"], ["b"], []⟩ "A" "b" (by decide)⟩

theorem disjointCI_remove_remove {a b : List String} (t : String)
    (h : DisjointCI a b) : DisjointCI (removeCI t a) (removeCI t b) :=
  fun u hu v hv => h u (mem_removeCI.mp hu).1 v (mem_removeCI.mp hv).1

theorem disjointCI_remove_left {a b : List String} (t : String)
    (h : DisjointCI a b) : DisjointCI (removeCI t a) b :=
  fun u hu v hv => h u (mem_removeCI.mp hu).1 v hv

theorem disjointCI_remove_right {a b : List String} (t : String)
    (h : DisjointCI a b) : DisjointCI a (removeCI t b) :=
  fun u hu v hv => h u hu v (mem_removeCI.mp hv).1

theorem disjointCI_push_left {a b : List String} (t : String)
    (h : DisjointCI a b) : DisjointCI (removeCI t a ++ [t]) (removeCI t b) := by
  intro u hu v hv
  rcases List.mem_append.mp hu with hu | hu
  · exact disjointCI_remove_remove t h u hu v hv
  · have heq : u = t := by simpa using hu
    subst heq
    exact fun he => (mem_removeCI.mp hv).2 he.symm

theorem disjointCI_push_right {a b : List String} (t : String)
    (h : DisjointCI a b) : DisjointCI (removeCI t a) (removeCI t b ++ [t]) := by
  intro u hu v hv
  rcases List.mem_append.mp hv with hv | hv
  · exact disjointCI_remove_remove t h u hu v hv
  · have heq : v = t := by simpa using hv
    subst heq
    exact (mem_removeCI.mp hu).2

theorem tagSetsInvariant_toggle (q : StructuredQuery) (tag : String)
    (h : TagSetsInvariant q) : TagSetsInvariant (toggleTagInSearch q tag) := by
  obtain ⟨h1, h2, h3⟩ := h
  cases hst : getTagState q tag with
  | must =>
    rw [toggle_of_must hst]
    exact ⟨disjointCI_remove_remove tag h1, disjointCI_push_right tag h2,
      disjointCI_push_right tag h3⟩
  | mustNot =>
    rw [toggle_of_mustNot hst]
    exact ⟨disjointCI_remove_remove tag h1, disjointCI_remove_remove tag h2,
      disjointCI_remove_remove tag h3⟩
  | like =>
    rw [toggle_of_like hst]
    exact ⟨disjointCI_push_right tag h1, disjointCI_remove_remove tag h2,
      disjointCI_push_left tag h3⟩
  | none =>
    rw [toggle_of_none hst]
    exact ⟨disjointCI_push_left tag h1, disjointCI_push_left tag h2,
      disjointCI_remove_remove tag h3⟩

theorem tagSetsInvariant_add (q : StructuredQuery) (tag : String) (ty : TagKind)
    (h : TagSetsInvariant q) :
    TagSetsInvariant (addTagFromRecommendation q tag ty) := by
  obtain ⟨h1, h2, h3⟩ := h
  cases ty with
  | like =>
    exact ⟨disjointCI_push_left tag h1, disjointCI_push_left tag h2,
      disjointCI_remove_remove tag h3⟩
  | must =>
    exact ⟨disjointCI_push_right tag h1, disjointCI_remove_remove tag h2,
      disjointCI_push_left tag h3⟩
  | mustNot =>
    exact ⟨disjointCI_remove_remove tag h1, disjointCI_push_right tag h2,
      disjointCI_push_right tag h3⟩

theorem tagSetsInvariant_remove (q : StructuredQuery) (tag : String) (ty : TagKind)
    (h : TagSetsInvariant q) : TagSetsInvariant (removeTagFromPill q tag ty) := by
  obtain ⟨h1, h2, h3⟩ := h
  cases ty with
  | like =>
    exact ⟨disjointCI_remove_left tag h1, disjointCI_remove_left tag h2, h3⟩
  | must =>
    exact ⟨disjointCI_remove_right tag h1, h2, disjointCI_remove_left tag h3⟩
  | mustNot =>
    exact ⟨h1, disjointCI_remove_right tag h2, disjointCI_remove_right tag h3⟩

theorem tagSetsInvariant_applyOp (q : StructuredQuery) (op : TsmOp)
    (h : TagSetsInvariant q) : TagSetsInvariant (applyTsmOp q op) := by
  cases op with
  | toggle tag => exact tagSetsInvariant_toggle q tag h
  | add tag ty => exact tagSetsInvariant_add q tag ty h
  | remove tag ty => exact tagSetsInvariant_remove q tag ty h

/-- C4 counterexample: the claim quantifies over arbitrary starting tag sets,
but a start that already violates the at-most-one-set invariant for some tag
keeps violating it after operations that do not touch that tag: starting from
likeTags = mustTags = ["a"], one toggle of "b" leaves "a" in two sets. -/
theorem tsm_invariant_fails_for_bad_start :
    ¬ TagSetsInvariant (applyTsmOps ⟨"", ["a"], ["a"], []⟩ [TsmOp.toggle "b"]) := by
  decide

/-- C4 (amended): every sequence of tag state machine operations (toggle,
direct-set from a recommendation, remove) *preserves* the invariant that no
normalized (lower-cased) tag appears in more than one of the three sets —
each operation removes its tag case-insensitively from all three sets before
any append. -/
theorem tsm_preserves_invariant (q : StructuredQuery) (ops : List TsmOp)
    (h : TagSetsInvariant q) : TagSetsInvariant (applyTsmOps q ops) := by
  induction ops generalizing q with
  | nil => exact h
  | cons op rest ih =>
    show TagSetsInvariant (applyTsmOps (applyTsmOp q op) rest)
    exact ih _ (tagSetsInvariant_applyOp q op h)

/-- Witness for C4 (amended) at a concrete state and operation sequence. -/
theorem tsm_preserves_invariant_witness :
    TagSetsInvariant ⟨"x", ["b"], [], []⟩ ∧
      TagSetsInvariant (applyTsmOps ⟨"x", ["b"], [], []⟩
        [TsmOp.toggle "a", TsmOp.add "c" TagKind.must,
          TsmOp.remove "b" TagKind.like]) :=
  ⟨by decide, tsm_preserves_invariant ⟨"x", ["b"], [], []⟩
    [TsmOp.toggle "a", TsmOp.add "c" TagKind.must,
      TsmOp.remove "b" TagKind.like] (by decide)⟩

/-! ## Ranker lemmas -/

theorem containsSub_iff {hay needle : List Char} :
    containsSub hay needle = true ↔ needle <:+: hay := by
  induction hay with
  | nil =>
    simp [containsSub, List.isPrefixOf_iff_prefix]
  | cons c t ih =>
    rw [containsSub]
    simp [List.isPrefixOf_iff_prefix, ih, List.infix_cons_iff]

/-- C2 counterexample: the spec's substring-tolerant match is bidirectional,
the ranker's is not.  With must tag "security" and a document tagged "sec",
the spec's rule keeps the document (the document tag is a substring of the
query tag), but the ranker drops it, because the code only tests
`docTag.toLowerCase().includes(tag.toLowerCase())`. -/
theorem filter_not_bidirectional :
    SpecKeep ["security"] [] ["sec"] ∧ keepDoc ["security"] [] ["sec"] = false := by
  decide

/-- C2 (amended): the ranker keeps a candidate iff every must tag is, after
lower-casing, a substring of some tag of the document and no must-not tag is,
after lower-casing, a substring of any tag of the document — the substring
test is one-directional (document tag contains query tag), not bidirectional
as the spec states. -/
theorem keepDoc_iff (mustTags mustNotTags docTags : List String) :
    keepDoc mustTags mustNotTags docTags = true ↔
      ((∀ t ∈ mustTags, ∃ d ∈ docTags, lowerL t.data <:+: lowerL d.data) ∧
        (∀ t ∈ mustNotTags, ∀ d ∈ docTags, ¬ lowerL t.data <:+: lowerL d.data)) := by
  simp [keepDoc, List.all_eq_true, List.any_eq_true, hasMatchingTag, docTagMatches,
    containsSub_iff]

/-- C3: the output of the rerank stage is sorted descending by the pair
`(likeScore, similarity)` — pairwise, every earlier result is
`rankLe`-no-smaller than every later one — and in particular the `likeScore`
sequence is non-increasing, so a surviving candidate with `likeScore` 2 is
always placed before one with `likeScore` 1 regardless of their similarity
values. -/
theorem rankStage_sorted (q : StructuredQuery) (cs : List Candidate) :
    List.Sorted rankLe (rankStage q cs) ∧
      List.Sorted (fun a b : Ranked => b.likeScore ≤ a.likeScore) (rankStage q cs) := by
  have h1 : List.Sorted rankLe (rankStage q cs) := by
    unfold rankStage
    exact (List.sorted_insertionSort rankLe _).sublist (List.take_sublist 5 _)
  refine ⟨h1, List.Pairwise.imp ?_ h1⟩
  intro a b hab
  rcases hab with h | ⟨h, _⟩
  · exact Nat.le_of_lt h
  · exact Nat.le_of_eq h.symm

/-! ## Recommendation scorer lemmas -/

theorem freqOf_bump_self (m : List (String × Nat)) (t : String) :
    freqOf (bump m t) t = freqOf m t + 1 := by
  induction m with
  | nil => simp [bump, freqOf]
  | cons kv rest ih =>
    obtain ⟨k, v⟩ := kv
    by_cases h : k = t
    · subst h; simp [bump, freqOf]
    · simp [bump, freqOf, h, ih]

theorem freqOf_bump_other (m : List (String × Nat)) {t s : String} (h : s ≠ t) :
    freqOf (bump m t) s = freqOf m s := by
  have hts : ¬ t = s := fun heq => h heq.symm
  induction m with
  | nil => simp [bump, freqOf, hts]
  | cons kv rest ih =>
    obtain ⟨k, v⟩ := kv
    by_cases hk : k = t
    · subst hk
      simp [bump, freqOf, hts]
    · simp [bump, freqOf, hk, ih]

theorem freqOf_foldl_bump (ts : List String) (s : String) :
    ∀ m, freqOf (ts.foldl bump m) s = freqOf m s + ts.count s := by
  induction ts with
  | nil => intro m; simp
  | cons t rest ih =>
    intro m
    rw [List.foldl_cons, ih]
    by_cases h : t = s
    · subst h
      rw [freqOf_bump_self]
      simp [List.count_cons]
      omega
    · rw [freqOf_bump_other m (fun heq => h heq.symm)]
      simp [List.count_cons, h]

theorem freqOf_results_foldl (results : List Ranked) (s : String) :
    ∀ m, freqOf (results.foldl (fun m r => r.cand.doc.tags.foldl bump m) m) s =
      freqOf m s + (results.map (fun r => r.cand.doc.tags.count s)).sum := by
  induction results with
  | nil => intro m; simp
  | cons r rest ih =>
    intro m
    rw [List.foldl_cons, ih, freqOf_foldl_bump]
    simp
    omega

theorem freqOf_tagFrequency (results : List Ranked) (s : String) :
    freqOf (tagFrequency results) s =
      (results.map (fun r => r.cand.doc.tags.count s)).sum := by
  unfold tagFrequency
  rw [freqOf_results_foldl]
  simp [freqOf]

theorem bump_eq_of_head {k : String} {v : Nat} (rest : List (String × Nat)) :
    bump ((k, v) :: rest) k = (k, v + 1) :: rest := by
  simp [bump]

theorem bump_eq_of_ne {k t : String} {v : Nat} (rest : List (String × Nat))
    (h : ¬ k = t) : bump ((k, v) :: rest) t = (k, v) :: bump rest t := by
  simp [bump, h]

theorem mem_keys_bump {m : List (String × Nat)} {t s : String} :
    s ∈ (bump m t).map Prod.fst ↔ s ∈ m.map Prod.fst ∨ s = t := by
  induction m with
  | nil => simp [bump]
  | cons kv rest ih =>
    obtain ⟨k, v⟩ := kv
    by_cases h : k = t
    · subst h
      rw [bump_eq_of_head]
      simp
      tauto
    · rw [bump_eq_of_ne rest h]
      simp [ih]
      tauto

theorem mem_keys_foldl_bump (ts : List String) {s : String} :
    ∀ m, s ∈ (ts.foldl bump m).map Prod.fst ↔ s ∈ m.map Prod.fst ∨ s ∈ ts := by
  induction ts with
  | nil => intro m; simp
  | cons t rest ih =>
    intro m
    rw [List.foldl_cons, ih, mem_keys_bump]
    simp
    tauto

theorem mem_keys_tagFrequency {results : List Ranked} {s : String} :
    s ∈ (tagFrequency results).map Prod.fst ↔ ∃ r ∈ results, s ∈ r.cand.doc.tags := by
  unfold tagFrequency
  have aux : ∀ (rs : List Ranked) (m : List (String × Nat)),
      s ∈ (rs.foldl (fun m r => r.cand.doc.tags.foldl bump m) m).map Prod.fst ↔
        s ∈ m.map Prod.fst ∨ ∃ r ∈ rs, s ∈ r.cand.doc.tags := by
    intro rs
    induction rs with
    | nil => intro m; simp
    | cons r rest ih =>
      intro m
      rw [List.foldl_cons, ih, mem_keys_foldl_bump]
      simp
      tauto
  rw [aux]
  simp

theorem nodupKeys_bump {m : List (String × Nat)} (t : String)
    (h : (m.map Prod.fst).Nodup) : ((bump m t).map Prod.fst).Nodup := by
  induction m with
  | nil => simp [bump]
  | cons kv rest ih =>
    obtain ⟨k, v⟩ := kv
    simp only [List.map_cons, List.nodup_cons] at h
    by_cases hk : k = t
    · subst hk
      rw [bump_eq_of_head]
      simp only [List.map_cons, List.nodup_cons]
      exact ⟨h.1, h.2⟩
    · rw [bump_eq_of_ne rest hk]
      simp only [List.map_cons, List.nodup_cons]
      refine ⟨?_, ih h.2⟩
      rw [mem_keys_bump]
      rintro (hh | hh)
      · exact h.1 hh
      · exact hk hh

theorem nodupKeys_foldl_bump (ts : List String) :
    ∀ m, (List.map Prod.fst m).Nodup → ((ts.foldl bump m).map Prod.fst).Nodup := by
  induction ts with
  | nil => intro m h; exact h
  | cons t rest ih =>
    intro m h
    rw [List.foldl_cons]
    exact ih _ (nodupKeys_bump t h)

theorem nodupKeys_tagFrequency (results : List Ranked) :
    ((tagFrequency results).map Prod.fst).Nodup := by
  unfold tagFrequency
  have aux : ∀ (rs : List Ranked) (m : List (String × Nat)),
      (List.map Prod.fst m).Nodup →
      ((rs.foldl (fun m r => r.cand.doc.tags.foldl bump m) m).map Prod.fst).Nodup := by
    intro rs
    induction rs with
    | nil => intro m h; exact h
    | cons r rest ih =>
      intro m h
      rw [List.foldl_cons]
      exact ih _ (nodupKeys_foldl_bump _ _ h)
  exact aux results [] (by simp)

theorem value_eq_freqOf {m : List (String × Nat)} (h : (m.map Prod.fst).Nodup)
    {k : String} {v : Nat} (hm : (k, v) ∈ m) : v = freqOf m k := by
  induction m with
  | nil => cases hm
  | cons kv rest ih =>
    obtain ⟨k', v'⟩ := kv
    simp only [List.map_cons, List.nodup_cons] at h
    rcases List.mem_cons.mp hm with heq | hmem
    · cases heq
      simp [freqOf]
    · have hkmem : k ∈ rest.map Prod.fst := List.mem_map.mpr ⟨(k, v), hmem, rfl⟩
      have hk : ¬ k' = k := fun hkk => h.1 (hkk ▸ hkmem)
      simp only [freqOf, hk, if_false]
      exact ih h.2 hmem

theorem sum_count_eq_filter_length (results : List Ranked) (t : String)
    (h : ∀ r ∈ results, r.cand.doc.tags.Nodup) :
    (results.map (fun r => r.cand.doc.tags.count t)).sum =
      (results.filter (fun r => decide (t ∈ r.cand.doc.tags))).length := by
  induction results with
  | nil => simp
  | cons r rest ih =>
    have hr := h r (by simp)
    have hrest : ∀ x ∈ rest, x.cand.doc.tags.Nodup := fun x hx => h x (by simp [hx])
    by_cases hmem : t ∈ r.cand.doc.tags
    · rw [List.map_cons, List.sum_cons, ih hrest]
      have hc : r.cand.doc.tags.count t = 1 := List.count_eq_one_of_mem hr hmem
      simp [List.filter_cons, hmem, hc]
      omega
    · rw [List.map_cons, List.sum_cons, ih hrest]
      have hc : r.cand.doc.tags.count t = 0 := List.count_eq_zero_of_not_mem hmem
      simp [List.filter_cons, hmem, hc]

theorem mem_tagEntries {results : List Ranked} {e : TagRec}
    (he : e ∈ tagEntries results) :
    (e.tag, e.frequency) ∈ tagFrequency results ∧
      e.eig = |(e.frequency : ℚ) - (results.length : ℚ) / 2| := by
  unfold tagEntries at he
  rcases List.mem_map.mp he with ⟨kv, hkv, rfl⟩
  exact ⟨hkv, rfl⟩

/-- C7: the recommendation scorer returns the empty list for an empty result
list; each returned entry carries `eig = |frequency − totalResults/2|` with
`frequency` the number of results whose (duplicate-free) tag set contains the
tag; every tag occurring in the results gets an entry (before truncation);
the output is sorted descending by `eig` and truncated to the top 15. -/
theorem calculateTagEIG_spec (results : List Ranked)
    (h : ∀ r ∈ results, r.cand.doc.tags.Nodup) :
    (results = [] → calculateTagEIG results = []) ∧
      (∀ e ∈ calculateTagEIG results,
        e.eig = |(e.frequency : ℚ) - (results.length : ℚ) / 2| ∧
          e.frequency =
            (results.filter (fun r => decide (e.tag ∈ r.cand.doc.tags))).length) ∧
      (∀ t : String, (∃ r ∈ results, t ∈ r.cand.doc.tags) ↔
        ∃ e ∈ tagEntries results, e.tag = t) ∧
      List.Sorted eigLe (calculateTagEIG results) ∧
      (calculateTagEIG results).length ≤ 15 := by
  refine ⟨?_, ?_, ?_, ?_, ?_⟩
  · rintro rfl
    simp [calculateTagEIG]
  · intro e he
    by_cases hres : results.length = 0
    · rw [calculateTagEIG, if_pos hres] at he
      exact absurd he (by simp)
    · rw [calculateTagEIG, if_neg hres] at he
      have he2 : e ∈ List.insertionSort eigLe (tagEntries results) :=
        List.take_subset _ _ he
      have he3 : e ∈ tagEntries results :=
        (List.perm_insertionSort eigLe _).mem_iff.mp he2
      obtain ⟨hmem, heig⟩ := mem_tagEntries he3
      refine ⟨heig, ?_⟩
      have h1 : e.frequency = freqOf (tagFrequency results) e.tag :=
        value_eq_freqOf (nodupKeys_tagFrequency results) hmem
      rw [h1, freqOf_tagFrequency, sum_count_eq_filter_length results e.tag h]
  · intro t
    rw [← mem_keys_tagFrequency]
    constructor
    · intro ht
      rcases List.mem_map.mp ht with ⟨kv, hkv, rfl⟩
      refine ⟨⟨kv.1, kv.2, |(kv.2 : ℚ) - (results.length : ℚ) / 2|⟩, ?_, rfl⟩
      exact List.mem_map.mpr ⟨kv, hkv, rfl⟩
    · rintro ⟨e, he, rfl⟩
      obtain ⟨hmem, _⟩ := mem_tagEntries he
      exact List.mem_map.mpr ⟨(e.tag, e.frequency), hmem, rfl⟩
  · rw [calculateTagEIG]
    split
    · exact List.sorted_nil
    · exact (List.sorted_insertionSort eigLe _).sublist (List.take_sublist 15 _)
  · rw [calculateTagEIG]
    split
    · simp
    · exact List.length_take_le 15 _

/-- Witness for C7 at the spec's EIG scenario: four results with tag sets
[a, b], [a], [b], [c]. -/
theorem calculateTagEIG_spec_witness :
    (∀ r ∈ ([⟨⟨⟨1, "", "", ["a", "b"]⟩, 0⟩, 0⟩, ⟨⟨⟨2, "", "", ["a"]⟩, 0⟩, 0⟩,
        ⟨⟨⟨3, "", "", ["b"]⟩, 0⟩, 0⟩, ⟨⟨⟨4, "", "", ["c"]⟩, 0⟩, 0⟩] : List Ranked),
      r.cand.doc.tags.Nodup) ∧
      ((([⟨⟨⟨1, "", "", ["a", "b"]⟩, 0⟩, 0⟩, ⟨⟨⟨2, "", "", ["a"]⟩, 0⟩, 0⟩,
        ⟨⟨⟨3, "", "", ["b"]⟩, 0⟩, 0⟩, ⟨⟨⟨4, "", "", ["c"]⟩, 0⟩, 0⟩] : List Ranked) = [] →
        calculateTagEIG [⟨⟨⟨1, "", "", ["a", "b"]⟩, 0⟩, 0⟩, ⟨⟨⟨2, "", "", ["a"]⟩, 0⟩, 0⟩,
          ⟨⟨⟨3, "", "", ["b"]⟩, 0⟩, 0⟩, ⟨⟨⟨4, "", "", ["c"]⟩, 0⟩, 0⟩] = []) ∧
      (∀ e ∈ calculateTagEIG [⟨⟨⟨1, "", "", ["a", "b"]⟩, 0⟩, 0⟩,
          ⟨⟨⟨2, "", "", ["a"]⟩, 0⟩, 0⟩, ⟨⟨⟨3, "", "", ["b"]⟩, 0⟩, 0⟩,
          ⟨⟨⟨4, "", "", ["c"]⟩, 0⟩, 0⟩],
        e.eig = |(e.frequency : ℚ) -
            (([⟨⟨⟨1, "", "", ["a", "b"]⟩, 0⟩, 0⟩, ⟨⟨⟨2, "", "", ["a"]⟩, 0⟩, 0⟩,
              ⟨⟨⟨3, "", "", ["b"]⟩, 0⟩, 0⟩,
              ⟨⟨⟨4, "", "", ["c"]⟩, 0⟩, 0⟩] : List Ranked).length : ℚ) / 2| ∧
          e.frequency = (([⟨⟨⟨1, "", "", ["a", "b"]⟩, 0⟩, 0⟩,
            ⟨⟨⟨2, "", "", ["a"]⟩, 0⟩, 0⟩, ⟨⟨⟨3, "", "", ["b"]⟩, 0⟩, 0⟩,
            ⟨⟨⟨4, "", "", ["c"]⟩, 0⟩, 0⟩] : List Ranked).filter
              (fun r => decide (e.tag ∈ r.cand.doc.tags))).length) ∧
      (∀ t : String, (∃ r ∈ ([⟨⟨⟨1, "", "", ["a", "b"]⟩, 0⟩, 0⟩,
          ⟨⟨⟨2, "", "", ["a"]⟩, 0⟩, 0⟩, ⟨⟨⟨3, "", "", ["b"]⟩, 0⟩, 0⟩,
          ⟨⟨⟨4, "", "", ["c"]⟩, 0⟩, 0⟩] : List Ranked), t ∈ r.cand.doc.tags) ↔
        ∃ e ∈ tagEntries [⟨⟨⟨1, "", "", ["a", "b"]⟩, 0⟩, 0⟩,
          ⟨⟨⟨2, "", "", ["a"]⟩, 0⟩, 0⟩, ⟨⟨⟨3, "", "", ["b"]⟩, 0⟩, 0⟩,
          ⟨⟨⟨4, "", "", ["c"]⟩, 0⟩, 0⟩], e.tag = t) ∧
      List.Sorted eigLe (calculateTagEIG [⟨⟨⟨1, "", "", ["a", "b"]⟩, 0⟩, 0⟩,
        ⟨⟨⟨2, "", "", ["a"]⟩, 0⟩, 0⟩, ⟨⟨⟨3, "", "", ["b"]⟩, 0⟩, 0⟩,
        ⟨⟨⟨4, "", "", ["c"]⟩, 0⟩, 0⟩]) ∧
      (calculateTagEIG [⟨⟨⟨1, "", "", ["a", "b"]⟩, 0⟩, 0⟩,
        ⟨⟨⟨2, "", "", ["a"]⟩, 0⟩, 0⟩, ⟨⟨⟨3, "", "", ["b"]⟩, 0⟩, 0⟩,
        ⟨⟨⟨4, "", "", ["c"]⟩, 0⟩, 0⟩]).length ≤ 15) :=
  ⟨by decide, calculateTagEIG_spec _ (by decide)⟩

/-! ## Empty-query short circuit -/

/-- C1: a fully empty structured query (empty free text and empty likeTags,
mustTags, mustNotTags) makes the search pipeline return an empty result list
and an empty recommendation list, whatever the backend would return. -/
theorem performSearch_empty_query (api : StructuredQuery → Option SearchResponse)
    (p : StructuredQuery) (hq : p.query = "") (hl : p.likeTags = [])
    (hm : p.mustTags = []) (hn : p.mustNotTags = []) :
    performSearch api p = ([], []) := by
  rw [performSearch, if_pos ⟨hq, hl, hm, hn⟩]

/-- Witness for C1: the guard fires even against a backend that would return
non-empty results and recommendations. -/
theorem performSearch_empty_query_witness :
    (⟨"", [], [], []⟩ : StructuredQuery).query = "" ∧
      (⟨"", [], [], []⟩ : StructuredQuery).likeTags = [] ∧
      (⟨"", [], [], []⟩ : StructuredQuery).mustTags = [] ∧
      (⟨"", [], [], []⟩ : StructuredQuery).mustNotTags = [] ∧
      performSearch (fun _ => some ⟨[⟨⟨mockDoc1, 1⟩, 1⟩], [⟨"x", 1, 1⟩]⟩)
        ⟨"", [], [], []⟩ = ([], []) :=
  ⟨rfl, rfl, rfl, rfl, performSearch_empty_query _ _ rfl rfl rfl rfl⟩

/-! ## Whitespace splitting lemmas (for the serialization round trip) -/

theorem splitWsAux_append_space (xs ys : List Char) :
    ∀ acc, splitWsAux (xs ++ ' ' :: ys) acc = splitWsAux xs acc ++ splitWsAux ys [] := by
  have hws : (' ' : Char).isWhitespace = true := by decide
  induction xs with
  | nil =>
    intro acc
    by_cases h : acc = []
    · subst h; simp [splitWsAux, hws]
    · simp [splitWsAux, hws, h]
  | cons c cs ih =>
    intro acc
    by_cases hc : c.isWhitespace = true
    · by_cases h : acc = []
      · subst h; simp [splitWsAux, hc, ih]
      · simp [splitWsAux, hc, h, ih]
    · rw [Bool.not_eq_true] at hc
      simp [splitWsAux, hc, ih]

theorem splitWs_append_space (xs ys : List Char) :
    splitWs (xs ++ ' ' :: ys) = splitWs xs ++ splitWs ys :=
  splitWsAux_append_space xs ys []

theorem splitWsAux_pieces (l : List Char) :
    ∀ acc, (∀ c ∈ acc, c.isWhitespace = false) →
      ∀ p ∈ splitWsAux l acc, p ≠ [] ∧ ∀ c ∈ p, c.isWhitespace = false := by
  induction l with
  | nil =>
    intro acc hacc p hp
    by_cases h : acc = []
    · subst h; simp [splitWsAux] at hp
    · simp only [splitWsAux, if_neg h, List.mem_singleton] at hp
      subst hp
      refine ⟨by simpa using h, ?_⟩
      intro c hc
      exact hacc c (List.mem_reverse.mp hc)
  | cons c cs ih =>
    intro acc hacc p hp
    by_cases hc : c.isWhitespace = true
    · by_cases h : acc = []
      · subst h
        simp only [splitWsAux, hc, if_true, if_pos rfl] at hp
        exact ih [] (by simp) p hp
      · simp only [splitWsAux, hc, if_true, if_neg h, List.mem_cons] at hp
        rcases hp with rfl | hp
        · refine ⟨by simpa using h, ?_⟩
          intro x hx
          exact hacc x (List.mem_reverse.mp hx)
        · exact ih [] (by simp) p hp
    · rw [Bool.not_eq_true] at hc
      simp only [splitWsAux, hc, Bool.false_eq_true, if_false] at hp
      refine ih (c :: acc) ?_ p hp
      intro x hx
      rcases List.mem_cons.mp hx with rfl | hx
      · exact hc
      · exact hacc x hx

theorem splitWs_pieces (l : List Char) :
    ∀ p ∈ splitWs l, p ≠ [] ∧ ∀ c ∈ p, c.isWhitespace = false :=
  splitWsAux_pieces l [] (by simp)

theorem splitWsAux_no_ws (l : List Char) :
    ∀ acc, (∀ c ∈ l, c.isWhitespace = false) →
      splitWsAux l acc = if acc.reverse ++ l = [] then [] else [acc.reverse ++ l] := by
  induction l with
  | nil =>
    intro acc _
    by_cases h : acc = []
    · subst h; simp [splitWsAux]
    · simp [splitWsAux, h]
  | cons c cs ih =>
    intro acc h
    have hc : c.isWhitespace = false := h c (by simp)
    rw [splitWsAux]
    rw [if_neg (by simp [hc])]
    rw [ih (c :: acc) (fun x hx => h x (by simp [hx]))]
    simp

theorem splitWs_single {p : List Char} (hne : p ≠ [])
    (hws : ∀ c ∈ p, c.isWhitespace = false) : splitWs p = [p] := by
  unfold splitWs
  rw [splitWsAux_no_ws p [] hws]
  simp [hne]

theorem splitWs_intercalate {ps : List (List Char)}
    (h : ∀ p ∈ ps, p ≠ [] ∧ ∀ c ∈ p, c.isWhitespace = false) :
    splitWs (List.intercalate [' '] ps) = ps := by
  induction ps with
  | nil => simp [List.intercalate, splitWs, splitWsAux]
  | cons p rest ih =>
    cases rest with
    | nil =>
      have hp := h p (by simp)
      simp only [List.intercalate, List.intersperse_singleton, List.flatten]
      simpa using splitWs_single hp.1 hp.2
    | cons p2 rest2 =>
      have hstep : List.intercalate [' '] (p :: p2 :: rest2) =
          p ++ ' ' :: List.intercalate [' '] (p2 :: rest2) := by
        simp [List.intercalate, List.intersperse]
      rw [hstep, splitWs_append_space,
        ih (fun x hx => h x (by simp [hx]))]
      have hp := h p (by simp)
      rw [splitWs_single hp.1 hp.2]
      rfl

/-! ## Token classification of serialized tags -/

theorem string_mk_data (s : String) : String.mk s.data = s := rfl

theorem isTag_mk_cons (c d : Char) (l : List Char) :
    isTag c (String.mk (d :: l)) = ((d == c) && decide (l ≠ [])) := by
  simp only [isTag, startsWithCh]
  cases hl : l with
  | nil => simp
  | cons x xs => simp [List.length_cons]

theorem strDrop1_mk_cons (c : Char) (t : String) :
    strDrop1 (String.mk (c :: t.data)) = t := by
  simp [strDrop1, string_mk_data]

theorem mustOf_append (a b : List String) : mustOf (a ++ b) = mustOf a ++ mustOf b := by
  simp [mustOf, List.filter_append]

theorem mustNotOf_append (a b : List String) :
    mustNotOf (a ++ b) = mustNotOf a ++ mustNotOf b := by
  simp [mustNotOf, List.filter_append]

theorem likeOf_append (a b : List String) : likeOf (a ++ b) = likeOf a ++ likeOf b := by
  simp [likeOf, List.filterMap_append]

theorem isTag_mk_pos {c : Char} {t : String} (ht : t.data ≠ []) :
    isTag c (String.mk (c :: t.data)) = true := by
  rw [isTag_mk_cons]
  simp [ht]

theorem mustOf_cons_pos {t : String} (ts : List String) (h : isTag '+' t = true) :
    mustOf (t :: ts) = strDrop1 t :: mustOf ts := by
  simp [mustOf, List.filter_cons, h]

theorem mustOf_cons_neg {t : String} (ts : List String) (h : isTag '+' t = false) :
    mustOf (t :: ts) = mustOf ts := by
  simp [mustOf, List.filter_cons, h]

theorem mustNotOf_cons_pos {t : String} (ts : List String) (h : isTag '-' t = true) :
    mustNotOf (t :: ts) = strDrop1 t :: mustNotOf ts := by
  simp [mustNotOf, List.filter_cons, h]

theorem mustNotOf_cons_neg {t : String} (ts : List String) (h : isTag '-' t = false) :
    mustNotOf (t :: ts) = mustNotOf ts := by
  simp [mustNotOf, List.filter_cons, h]

theorem likeOf_cons_tilde {t : String} (ts : List String) (h : isTag '~' t = true) :
    likeOf (t :: ts) = strDrop1 t :: likeOf ts := by
  simp [likeOf, List.filterMap_cons, h]

theorem likeOf_cons_skip {t : String} (ts : List String) (h1 : isTag '~' t = false)
    (h2 : (isTag '+' t || isTag '-' t) = true) :
    likeOf (t :: ts) = likeOf ts := by
  simp only [likeOf, List.filterMap_cons]
  rw [if_neg (by simp [h1]), if_pos h2]

theorem mustOf_map_tilde (ts : List String) :
    mustOf (ts.map (fun t => String.mk ('~' :: t.data))) = [] := by
  induction ts with
  | nil => rfl
  | cons t rest ih =>
    rw [List.map_cons, mustOf_cons_neg _ (by rw [isTag_mk_cons]; rfl), ih]

theorem mustOf_map_minus (ts : List String) :
    mustOf (ts.map (fun t => String.mk ('-' :: t.data))) = [] := by
  induction ts with
  | nil => rfl
  | cons t rest ih =>
    rw [List.map_cons, mustOf_cons_neg _ (by rw [isTag_mk_cons]; rfl), ih]

theorem mustOf_map_plus (ts : List String) (h : ∀ t ∈ ts, t.data ≠ []) :
    mustOf (ts.map (fun t => String.mk ('+' :: t.data))) = ts := by
  induction ts with
  | nil => rfl
  | cons t rest ih =>
    rw [List.map_cons, mustOf_cons_pos _ (isTag_mk_pos (h t (by simp))),
      strDrop1_mk_cons, ih (fun x hx => h x (by simp [hx]))]

theorem mustNotOf_map_tilde (ts : List String) :
    mustNotOf (ts.map (fun t => String.mk ('~' :: t.data))) = [] := by
  induction ts with
  | nil => rfl
  | cons t rest ih =>
    rw [List.map_cons, mustNotOf_cons_neg _ (by rw [isTag_mk_cons]; rfl), ih]

theorem mustNotOf_map_plus (ts : List String) :
    mustNotOf (ts.map (fun t => String.mk ('+' :: t.data))) = [] := by
  induction ts with
  | nil => rfl
  | cons t rest ih =>
    rw [List.map_cons, mustNotOf_cons_neg _ (by rw [isTag_mk_cons]; rfl), ih]

theorem mustNotOf_map_minus (ts : List String) (h : ∀ t ∈ ts, t.data ≠ []) :
    mustNotOf (ts.map (fun t => String.mk ('-' :: t.data))) = ts := by
  induction ts with
  | nil => rfl
  | cons t rest ih =>
    rw [List.map_cons, mustNotOf_cons_pos _ (isTag_mk_pos (h t (by simp))),
      strDrop1_mk_cons, ih (fun x hx => h x (by simp [hx]))]

theorem likeOf_map_tilde (ts : List String) (h : ∀ t ∈ ts, t.data ≠ []) :
    likeOf (ts.map (fun t => String.mk ('~' :: t.data))) = ts := by
  induction ts with
  | nil => rfl
  | cons t rest ih =>
    rw [List.map_cons, likeOf_cons_tilde _ (isTag_mk_pos (h t (by simp))),
      strDrop1_mk_cons, ih (fun x hx => h x (by simp [hx]))]

theorem likeOf_map_plus (ts : List String) (h : ∀ t ∈ ts, t.data ≠ []) :
    likeOf (ts.map (fun t => String.mk ('+' :: t.data))) = [] := by
  induction ts with
  | nil => rfl
  | cons t rest ih =>
    have h2 : (isTag '+' (String.mk ('+' :: t.data)) ||
        isTag '-' (String.mk ('+' :: t.data))) = true := by
      rw [isTag_mk_pos (h t (by simp))]
      rfl
    rw [List.map_cons, likeOf_cons_skip _ (by rw [isTag_mk_cons]; rfl) h2,
      ih (fun x hx => h x (by simp [hx]))]

theorem likeOf_map_minus (ts : List String) (h : ∀ t ∈ ts, t.data ≠ []) :
    likeOf (ts.map (fun t => String.mk ('-' :: t.data))) = [] := by
  induction ts with
  | nil => rfl
  | cons t rest ih =>
    have hminus : isTag '-' (String.mk ('-' :: t.data)) = true :=
      isTag_mk_pos (h t (by simp))
    have h2 : (isTag '+' (String.mk ('-' :: t.data)) ||
        isTag '-' (String.mk ('-' :: t.data))) = true := by
      rw [hminus]
      simp
    rw [List.map_cons, likeOf_cons_skip _ (by rw [isTag_mk_cons]; rfl) h2,
      ih (fun x hx => h x (by simp [hx]))]
theorem takeWhile_append_sat {α : Type} (p : α → Bool) {l₁ l₂ : List α}
    (h : ∀ a ∈ l₁, p a = true) :
    (l₁ ++ l₂).takeWhile p = l₁ ++ l₂.takeWhile p := by
  induction l₁ with
  | nil => simp
  | cons a rest ih =>
    have ha := h a (by simp)
    simp [List.takeWhile_cons, ha, ih (fun x hx => h x (by simp [hx]))]

theorem dropWhile_append_sat {α : Type} (p : α → Bool) {l₁ l₂ : List α}
    (h : ∀ a ∈ l₁, p a = true) :
    (l₁ ++ l₂).dropWhile p = l₂.dropWhile p := by
  induction l₁ with
  | nil => simp
  | cons a rest ih =>
    have ha := h a (by simp)
    simp [List.dropWhile_cons, ha, ih (fun x hx => h x (by simp [hx]))]

theorem takeWhile_nil_unsat {α : Type} (p : α → Bool) {l : List α}
    (h : ∀ a ∈ l, p a = false) : l.takeWhile p = [] := by
  cases l with
  | nil => rfl
  | cons a rest => simp [List.takeWhile_cons, h a (by simp)]

theorem dropWhile_self_unsat {α : Type} (p : α → Bool) {l : List α}
    (h : ∀ a ∈ l, p a = false) : l.dropWhile p = l := by
  cases l with
  | nil => rfl
  | cons a rest => simp [List.dropWhile_cons, h a (by simp)]

/-! ## Serialization round trip -/

theorem tokenize_updateSearchInputWithTags (q : StructuredQuery)
    (htags : ∀ t ∈ q.likeTags ++ q.mustTags ++ q.mustNotTags, WfTag t) :
    tokenize (updateSearchInputWithTags q) =
      tokenize q.query ++
        (q.likeTags.map (fun t => String.mk ('~' :: t.data)) ++
          q.mustTags.map (fun t => String.mk ('+' :: t.data)) ++
          q.mustNotTags.map (fun t => String.mk ('-' :: t.data))) := by
  have hlike : ∀ t ∈ q.likeTags, WfTag t := fun t ht => htags t (by simp [ht])
  have hmust : ∀ t ∈ q.mustTags, WfTag t := fun t ht => htags t (by simp [ht])
  have hnot : ∀ t ∈ q.mustNotTags, WfTag t := fun t ht => htags t (by simp [ht])
  have piecewf : ∀ (c : Char), c.isWhitespace = false →
      ∀ (ts : List String), (∀ t ∈ ts, WfTag t) →
      ∀ p ∈ ts.map (fun t => c :: t.data), p ≠ [] ∧ ∀ x ∈ p, x.isWhitespace = false := by
    intro c hcws ts hts p hp
    rcases List.mem_map.mp hp with ⟨t, ht, rfl⟩
    refine ⟨by simp, ?_⟩
    intro x hx
    rcases List.mem_cons.mp hx with rfl | hx
    · exact hcws
    · exact (hts t ht).2 x hx
  have hLsplit := splitWs_intercalate (piecewf '~' (by decide) q.likeTags hlike)
  have hMsplit := splitWs_intercalate (piecewf '+' (by decide) q.mustTags hmust)
  have hNsplit := splitWs_intercalate (piecewf '-' (by decide) q.mustNotTags hnot)
  have h0 : (updateSearchInputWithTags q).data =
      List.intercalate [' ']
        (splitWs ((if q.query.data = [] then [] else q.query.data ++ [' ']) ++
          List.intercalate [' '] (q.likeTags.map (fun t => '~' :: t.data)) ++ [' '] ++
          List.intercalate [' '] (q.mustTags.map (fun t => '+' :: t.data)) ++ [' '] ++
          List.intercalate [' '] (q.mustNotTags.map (fun t => '-' :: t.data)))) := rfl
  show (splitWs (updateSearchInputWithTags q).data).map String.mk = _
  rw [h0, splitWs_intercalate (splitWs_pieces _)]
  by_cases hqe : q.query.data = []
  · rw [if_pos hqe]
    have massage :
        ([] : List Char) ++
            List.intercalate [' '] (q.likeTags.map (fun t => '~' :: t.data)) ++ [' '] ++
            List.intercalate [' '] (q.mustTags.map (fun t => '+' :: t.data)) ++ [' '] ++
            List.intercalate [' '] (q.mustNotTags.map (fun t => '-' :: t.data)) =
          List.intercalate [' '] (q.likeTags.map (fun t => '~' :: t.data)) ++
            ' ' :: (List.intercalate [' '] (q.mustTags.map (fun t => '+' :: t.data)) ++
              ' ' :: List.intercalate [' '] (q.mustNotTags.map (fun t => '-' :: t.data))) := by
      simp
    rw [massage, splitWs_append_space, splitWs_append_space, hLsplit, hMsplit, hNsplit]
    show _ = (splitWs q.query.data).map String.mk ++ _
    rw [hqe]
    simp only [splitWs, splitWsAux, if_true, List.map_nil, List.nil_append,
      List.map_append, List.map_map, List.append_assoc]
    rfl
  · rw [if_neg hqe]
    have massage :
        q.query.data ++ [' '] ++
            List.intercalate [' '] (q.likeTags.map (fun t => '~' :: t.data)) ++ [' '] ++
            List.intercalate [' '] (q.mustTags.map (fun t => '+' :: t.data)) ++ [' '] ++
            List.intercalate [' '] (q.mustNotTags.map (fun t => '-' :: t.data)) =
          q.query.data ++
            ' ' :: (List.intercalate [' '] (q.likeTags.map (fun t => '~' :: t.data)) ++
              ' ' :: (List.intercalate [' '] (q.mustTags.map (fun t => '+' :: t.data)) ++
                ' ' :: List.intercalate [' ']
                  (q.mustNotTags.map (fun t => '-' :: t.data)))) := by
      simp
    rw [massage, splitWs_append_space, splitWs_append_space, splitWs_append_space,
      hLsplit, hMsplit, hNsplit]
    show _ = (splitWs q.query.data).map String.mk ++ _
    simp only [List.map_append, List.map_map, List.append_assoc]
    rfl

/-- C6 counterexample: the round-trip claim fails when the free text itself
looks like a tag token.  For q = ⟨"+a", [], [], []⟩ (which has no duplicate
normalized tags across its sets), serialization yields "+a" and re-parsing
turns it into a must tag: the free text is lost and mustTags gains "a", so q
is not reconstructed even up to tag casing and ordering. -/
theorem roundtrip_fails_for_tag_like_free_text :
    parseSearchInput (updateSearchInputWithTags ⟨"+a", [], [], []⟩) =
      ⟨"", [], ["a"], []⟩ ∧
      (⟨"+a", [], [], []⟩ : StructuredQuery).mustTags = [] := by
  constructor
  · decide
  · rfl

/-- C6 (amended): for every structured query whose free text is a
whitespace-normalized sequence of non-tag tokens and whose tags are non-empty
and whitespace-free (and with no duplicate normalized tag across sets, as the
claim assumes), parsing the canonical serialization reconstructs the query
exactly — in particular up to tag casing and ordering within each set. -/
theorem parse_serialize_roundtrip (q : StructuredQuery)
    (hq : ∀ t ∈ tokenize q.query, isTagToken t = false)
    (hqn : q.query = joinSpace (tokenize q.query))
    (htags : ∀ t ∈ q.likeTags ++ q.mustTags ++ q.mustNotTags, WfTag t)
    (_hinv : TagSetsInvariant q) :
    parseSearchInput (updateSearchInputWithTags q) = q := by
  have hlike : ∀ t ∈ q.likeTags, WfTag t := fun t ht => htags t (by simp [ht])
  have hmust : ∀ t ∈ q.mustTags, WfTag t := fun t ht => htags t (by simp [ht])
  have hnot : ∀ t ∈ q.mustNotTags, WfTag t := fun t ht => htags t (by simp [ht])
  have htokens := tokenize_updateSearchInputWithTags q htags
  have hfree_pred : ∀ tok ∈ tokenize q.query, (!isTagToken tok) = true := by
    intro tok htok
    rw [hq tok htok]
    rfl
  have htag_pred : ∀ tok ∈
      q.likeTags.map (fun t => String.mk ('~' :: t.data)) ++
        q.mustTags.map (fun t => String.mk ('+' :: t.data)) ++
        q.mustNotTags.map (fun t => String.mk ('-' :: t.data)),
      (!isTagToken tok) = false := by
    intro tok htok
    have htt : isTagToken tok = true := by
      rcases List.mem_append.mp htok with h1 | h1
      · rcases List.mem_append.mp h1 with h2 | h2
        · rcases List.mem_map.mp h2 with ⟨t, ht, rfl⟩
          simp [isTagToken, isTag_mk_pos (hlike t ht).1]
        · rcases List.mem_map.mp h2 with ⟨t, ht, rfl⟩
          simp [isTagToken, isTag_mk_pos (hmust t ht).1]
      · rcases List.mem_map.mp h1 with ⟨t, ht, rfl⟩
        simp [isTagToken, isTag_mk_pos (hnot t ht).1]
    rw [htt]
    rfl
  have hfreeT : freeTokensOf (tokenize q.query ++
      (q.likeTags.map (fun t => String.mk ('~' :: t.data)) ++
        q.mustTags.map (fun t => String.mk ('+' :: t.data)) ++
        q.mustNotTags.map (fun t => String.mk ('-' :: t.data)))) = tokenize q.query := by
    unfold freeTokensOf
    rw [takeWhile_append_sat _ hfree_pred, takeWhile_nil_unsat _ htag_pred,
      List.append_nil]
  have htagT : tagTokensOf (tokenize q.query ++
      (q.likeTags.map (fun t => String.mk ('~' :: t.data)) ++
        q.mustTags.map (fun t => String.mk ('+' :: t.data)) ++
        q.mustNotTags.map (fun t => String.mk ('-' :: t.data)))) =
      q.likeTags.map (fun t => String.mk ('~' :: t.data)) ++
        q.mustTags.map (fun t => String.mk ('+' :: t.data)) ++
        q.mustNotTags.map (fun t => String.mk ('-' :: t.data)) := by
    unfold tagTokensOf
    rw [dropWhile_append_sat _ hfree_pred, dropWhile_self_unsat _ htag_pred]
  have hmustOf : mustOf
      (q.likeTags.map (fun t => String.mk ('~' :: t.data)) ++
        q.mustTags.map (fun t => String.mk ('+' :: t.data)) ++
        q.mustNotTags.map (fun t => String.mk ('-' :: t.data))) = q.mustTags := by
    rw [mustOf_append, mustOf_append, mustOf_map_tilde,
      mustOf_map_plus _ (fun t ht => (hmust t ht).1), mustOf_map_minus]
    simp
  have hnotOf : mustNotOf
      (q.likeTags.map (fun t => String.mk ('~' :: t.data)) ++
        q.mustTags.map (fun t => String.mk ('+' :: t.data)) ++
        q.mustNotTags.map (fun t => String.mk ('-' :: t.data))) = q.mustNotTags := by
    rw [mustNotOf_append, mustNotOf_append, mustNotOf_map_tilde, mustNotOf_map_plus,
      mustNotOf_map_minus _ (fun t ht => (hnot t ht).1)]
    simp
  have hlikeOf : likeOf
      (q.likeTags.map (fun t => String.mk ('~' :: t.data)) ++
        q.mustTags.map (fun t => String.mk ('+' :: t.data)) ++
        q.mustNotTags.map (fun t => String.mk ('-' :: t.data))) = q.likeTags := by
    rw [likeOf_append, likeOf_append,
      likeOf_map_tilde _ (fun t ht => (hlike t ht).1),
      likeOf_map_plus _ (fun t ht => (hmust t ht).1),
      likeOf_map_minus _ (fun t ht => (hnot t ht).1)]
    simp
  unfold parseSearchInput
  rw [htokens, parseLoop_free, List.nil_append, hfreeT, htagT, hmustOf, hnotOf, hlikeOf]
  rw [← hqn]

/-- Witness for C6 (amended) at a concrete query. -/
theorem parse_serialize_roundtrip_witness :
    (∀ t ∈ tokenize ("hello + world" : String), isTagToken t = false) ∧
      ("hello + world" : String) = joinSpace (tokenize "hello + world") ∧
      (∀ t ∈ (["React", "js"] : List String) ++ ["Vue"] ++ ["老旧"], WfTag t) ∧
      TagSetsInvariant ⟨"hello + world", ["React", "js"], ["Vue"], ["老旧"]⟩ ∧
      parseSearchInput (updateSearchInputWithTags
        ⟨"hello + world", ["React", "js"], ["Vue"], ["老旧"]⟩) =
        ⟨"hello + world", ["React", "js"], ["Vue"], ["老旧"]⟩ :=
  ⟨by decide, by decide, by decide, by decide,
    parse_serialize_roundtrip ⟨"hello + world", ["React", "js"], ["Vue"], ["老旧"]⟩
      (by decide) (by decide) (by decide) (by decide)⟩

/-! ## Prototype pipeline lemmas -/

theorem ratSqrt_one : ratSqrt (1 : ℚ) = 1 := by
  rw [ratSqrt]
  norm_num

theorem simMap_congr (q : String) (ds : List MockDoc) :
    ∀ (i : Nat) (r1 r2 : Nat → ℚ),
      (∀ j, i ≤ j → j < i + ds.length → r1 j = r2 j) →
      simMap r1 q i ds = simMap r2 q i ds := by
  induction ds with
  | nil => intro i r1 r2 _; rfl
  | cons d rest ih =>
    intro i r1 r2 h
    show (⟨d, calculateSimilarity (r1 i) q d.content⟩ : Candidate) ::
        simMap r1 q (i + 1) rest =
      (⟨d, calculateSimilarity (r2 i) q d.content⟩ : Candidate) ::
        simMap r2 q (i + 1) rest
    rw [h i (le_refl i) (by simp), ih (i + 1) r1 r2 ?_]
    intro j hj1 hj2
    refine h j (by omega) ?_
    simp only [List.length_cons] at hj2 ⊢
    omega

/-- C9 (amended): the pipeline output depends on nothing but the input string
and the Math.random draws; two runs whose oracles agree on the first 8 draws
(one per mock document) produce identical ranked result lists and identical
recommendation lists.  The similarity heuristic does consume a fresh random
factor per document, so runs with different draws can differ. -/
theorem searchPipeline_deterministic (r1 r2 : Nat → ℚ) (input : String)
    (h : ∀ i < 8, r1 i = r2 i) :
    searchPipeline r1 input = searchPipeline r2 input := by
  have hsim : simMap r1 (parseSearchInputProto input).query 0 mockDocuments =
      simMap r2 (parseSearchInputProto input).query 0 mockDocuments := by
    apply simMap_congr
    intro j _ hj2
    refine h j ?_
    have hlen : (0 + mockDocuments.length) = 8 := rfl
    rw [hlen] at hj2
    exact hj2
  simp only [searchPipeline, performSearchProto]
  rw [hsim]

/-- Witness for C9 (amended): two oracles agreeing on the 8 consumed draws. -/
theorem searchPipeline_deterministic_witness :
    (∀ i < 8, (fun _ : Nat => (0 : ℚ)) i =
        (fun i : Nat => if i < 8 then (0 : ℚ) else 1) i) ∧
      searchPipeline (fun _ => (0 : ℚ)) "React" =
        searchPipeline (fun i => if i < 8 then (0 : ℚ) else 1) "React" :=
  ⟨fun i hi => by simp [hi],
    searchPipeline_deterministic (fun _ => (0 : ℚ))
      (fun i => if i < 8 then (0 : ℚ) else 1) "React" (fun i hi => by simp [hi])⟩

theorem calcSim_de (r : ℚ) (c : String)
    (h1 : containsSub (lowerL c.data) ['的'] = true)
    (h2 : (jsSplitWs (lowerL c.data)).any
      (fun cw => containsSub cw ['的'] || containsSub ['的'] cw) = true) :
    calculateSimilarity r "的" c =
      min ((9 : ℚ) / 100 * (85 / 100 + r * (15 / 100))) (95 / 100) := by
  have e0 : ("的" : String).data = ['的'] := rfl
  have e1 : lowerL ['的'] = ['的'] := by decide
  have e2 : jsSplitWs ['的'] = [['的']] := by decide
  have e3 : ('的' : Char).isWhitespace = false := by decide
  have e4 : List.filter (fun qw => (jsSplitWs (lowerL c.data)).any
      (fun cw => containsSub cw qw || containsSub qw cw)) [['的']] = [['的']] := by
    simp only [List.filter_cons, List.filter_nil, h2, if_true]
  rw [calculateSimilarity]
  rw [if_neg (by rw [e0]; simp)]
  simp only [e0, e1, e2, e3, h1, h2, if_true, List.length_cons, List.length_nil,
    List.any_cons, List.any_nil, Nat.cast_one, Bool.not_false, decide_not]
  norm_num [ratSqrt_one]
  rw [e4]
  have e5 : List.filter (fun a => containsSub (lowerL c.data) [a] && !a.isWhitespace)
      ['的'] = ['的'] := by
    simp [List.filter_cons, h1, e3]
  have e6 : List.filter (fun c : Char => !c.isWhitespace) ['的'] = ['的'] := by decide
  simp only [e3, e5, e6, List.length_cons, List.length_nil, Nat.cast_one, if_true,
    eq_self_iff_true]
  norm_num [ratSqrt_one]

theorem performSearchProto_de (r s : ℚ)
    (hs : min ((9 : ℚ) / 100 * (85 / 100 + r * (15 / 100))) (95 / 100) = s) :
    performSearchProto (fun _ => r) ⟨"的", [], [], []⟩ =
      [⟨⟨mockDoc1, s⟩, 0⟩, ⟨⟨mockDoc2, s⟩, 0⟩, ⟨⟨mockDoc3, s⟩, 0⟩,
        ⟨⟨mockDoc4, s⟩, 0⟩, ⟨⟨mockDoc5, s⟩, 0⟩] := by
  have hall : ∀ d ∈ mockDocuments,
      containsSub (lowerL d.content.data) ['的'] = true ∧
        (jsSplitWs (lowerL d.content.data)).any
          (fun cw => containsSub cw ['的'] || containsSub ['的'] cw) = true := by decide
  have hc : ∀ d ∈ mockDocuments, calculateSimilarity r "的" d.content = s := fun d hd => by
    rw [calcSim_de r d.content (hall d hd).1 (hall d hd).2, hs]
  have hcand : simMap (fun _ => r) "的" 0 mockDocuments =
      [⟨mockDoc1, s⟩, ⟨mockDoc2, s⟩, ⟨mockDoc3, s⟩, ⟨mockDoc4, s⟩, ⟨mockDoc5, s⟩,
        ⟨mockDoc6, s⟩, ⟨mockDoc7, s⟩, ⟨mockDoc8, s⟩] := by
    simp only [mockDocuments, simMap]
    rw [hc mockDoc1 (by simp [mockDocuments]), hc mockDoc2 (by simp [mockDocuments]),
      hc mockDoc3 (by simp [mockDocuments]), hc mockDoc4 (by simp [mockDocuments]),
      hc mockDoc5 (by simp [mockDocuments]), hc mockDoc6 (by simp [mockDocuments]),
      hc mockDoc7 (by simp [mockDocuments]), hc mockDoc8 (by simp [mockDocuments])]
  simp only [performSearchProto]
  rw [hcand]
  have hsorted : List.Sorted simLe
      [(⟨mockDoc1, s⟩ : Candidate), ⟨mockDoc2, s⟩, ⟨mockDoc3, s⟩, ⟨mockDoc4, s⟩,
        ⟨mockDoc5, s⟩, ⟨mockDoc6, s⟩, ⟨mockDoc7, s⟩, ⟨mockDoc8, s⟩] := by
    simp [List.Sorted, List.pairwise_cons, simLe]
  rw [hsorted.insertionSort_eq]
  rw [List.take_of_length_le (by simp)]
  simp only [rankStage]
  have hfil : List.filter (fun c : Candidate => keepDoc [] [] c.doc.tags)
      [(⟨mockDoc1, s⟩ : Candidate), ⟨mockDoc2, s⟩, ⟨mockDoc3, s⟩, ⟨mockDoc4, s⟩,
        ⟨mockDoc5, s⟩, ⟨mockDoc6, s⟩, ⟨mockDoc7, s⟩, ⟨mockDoc8, s⟩] =
      [(⟨mockDoc1, s⟩ : Candidate), ⟨mockDoc2, s⟩, ⟨mockDoc3, s⟩, ⟨mockDoc4, s⟩,
        ⟨mockDoc5, s⟩, ⟨mockDoc6, s⟩, ⟨mockDoc7, s⟩, ⟨mockDoc8, s⟩] :=
    List.filter_eq_self.mpr (fun a _ => rfl)
  rw [hfil]
  have hmap : List.map
      (fun c => (⟨c, likeScoreOf ([] : List String) c.doc.tags⟩ : Ranked))
      [(⟨mockDoc1, s⟩ : Candidate), ⟨mockDoc2, s⟩, ⟨mockDoc3, s⟩, ⟨mockDoc4, s⟩,
        ⟨mockDoc5, s⟩, ⟨mockDoc6, s⟩, ⟨mockDoc7, s⟩, ⟨mockDoc8, s⟩] =
      [⟨⟨mockDoc1, s⟩, 0⟩, ⟨⟨mockDoc2, s⟩, 0⟩, ⟨⟨mockDoc3, s⟩, 0⟩, ⟨⟨mockDoc4, s⟩, 0⟩,
        ⟨⟨mockDoc5, s⟩, 0⟩, ⟨⟨mockDoc6, s⟩, 0⟩, ⟨⟨mockDoc7, s⟩, 0⟩,
        ⟨⟨mockDoc8, s⟩, 0⟩] := rfl
  rw [hmap]
  have hsorted2 : List.Sorted rankLe
      [(⟨⟨mockDoc1, s⟩, 0⟩ : Ranked), ⟨⟨mockDoc2, s⟩, 0⟩, ⟨⟨mockDoc3, s⟩, 0⟩,
        ⟨⟨mockDoc4, s⟩, 0⟩, ⟨⟨mockDoc5, s⟩, 0⟩, ⟨⟨mockDoc6, s⟩, 0⟩, ⟨⟨mockDoc7, s⟩, 0⟩,
        ⟨⟨mockDoc8, s⟩, 0⟩] := by
    simp [List.Sorted, List.pairwise_cons, rankLe]
  rw [hsorted2.insertionSort_eq]
  rfl

/-- C9 counterexample: the prototype pipeline is not deterministic for a fixed
input string over the fixed mock corpus — it multiplies each document's score
by a fresh `0.85 + Math.random() * 0.15` factor.  Two runs on the query "的"
whose draws are all 0 and all 1/3 return the same five documents but with
similarity 153/2000 resp. 81/1000, so the outputs differ. -/
theorem searchPipeline_not_deterministic :
    searchPipeline (fun _ => (0 : ℚ)) "的" ≠ searchPipeline (fun _ => (1 : ℚ) / 3) "的" := by
  have hp : parseSearchInputProto "的" = ⟨"的", [], [], []⟩ := by decide
  have h0 := performSearchProto_de 0 (153 / 2000) (by rw [min_def]; norm_num)
  have h3 := performSearchProto_de ((1 : ℚ) / 3) (81 / 1000) (by rw [min_def]; norm_num)
  intro hEq
  have h1 : performSearchProto (fun _ => (0 : ℚ)) (parseSearchInputProto "的") =
      performSearchProto (fun _ => (1 : ℚ) / 3) (parseSearchInputProto "的") :=
    congrArg Prod.fst hEq
  rw [hp, h0, h3] at h1
  have h2 := congrArg (fun l => (l.headD ⟨⟨mockDoc1, 0⟩, 0⟩).cand.similarity) h1
  simp only [List.headD_cons] at h2
  norm_num at h2
